import Mathlib

/-!
# Groth16 prover (`internal/backend/bls381/groth16/prove.go`)

Shallow embedding of `Prove` and `computeH`.

* Scalar-field elements (`fr.Element`) are elements of `ZMod q`, where `q` stands for the
  modulus of the scalar field of BLS12-381, an odd prime; the development keeps `q` as a
  parameter and assumes `q` prime and `q ≠ 2` only where a proof needs it. The Montgomery and
  the regular form of an element denote the same field value, so `FromMont` is the identity
  on the embedded value, and `ToBigInt` of a regular element is `ZMod.val`.
* The counters of the constraint system (`NbPublicVariables`, ...) and the lengths of slices
  are natural numbers; the expected witness length `NbPublicVariables - 1 + NbSecretVariables`
  is computed in the integers, so that it is `-1` when both counters are zero.
* Curve points (`curve.G1Affine`, `curve.G1Jac`, `curve.G2Affine`, `curve.G2Jac`) are elements
  of additive commutative groups `P1`, `P2`; affine and Jacobian coordinates denote the same
  point, so `FromJacobian`, `FromAffine` are the identity and `AddMixed`, `AddAssign` are `+`.
* Goroutines and channels are sequentialised along the data dependencies; the one place where
  the order of events is observable to the code, the `select` loop of `computeKRS`, takes the
  order in which the three signals are received as an explicit argument.
-/

namespace Groth16

/-! ## Data model -/

/-- Decimation argument of the FFT calls (`fft.DIT`, `fft.DIF`). -/
inductive Decimation where
  | DIT
  | DIF
  deriving DecidableEq, Repr

/-- Modelled from the spec: the evaluation domain (`fft.Domain`), whose declaration is not part
of the sources. Per the spec it is a cyclic subgroup of order `Cardinality`, generated by
`Generator`, plus a coset shift `CosetShift`. -/
structure Domain (q : ℕ) where
  Cardinality : ℕ
  Generator : ZMod q
  CosetShift : ZMod q

/-- What `r1cs.Solve` leaves behind: it fills the caller-allocated slices `a`, `b`, `c`,
`wireValues` in place (their lengths are fixed by the caller), so it is described by the value
written at each index, together with the returned error. -/
structure Solved (q : ℕ) (E : Type) where
  a : ℕ → ZMod q
  b : ℕ → ZMod q
  c : ℕ → ZMod q
  wireValues : ℕ → ZMod q
  err : Option E

/-- The fields of `bls381backend.R1CS` that `Prove` reads, and its `Solve` method (the solver
is an external collaborator and is taken as a parameter). -/
structure R1CS (q : ℕ) (E : Type) where
  NbPublicVariables : ℕ
  NbSecretVariables : ℕ
  NbInternalVariables : ℕ
  NbConstraints : ℕ
  Solve : List (ZMod q) → Solved q E

/-- Group-one part of the proving key (`pk.G1`). -/
structure ProvingKeyG1 (P1 : Type) where
  Alpha : P1
  Beta : P1
  Delta : P1
  A : List P1
  B : List P1
  Z : List P1
  K : List P1

/-- Group-two part of the proving key (`pk.G2`). -/
structure ProvingKeyG2 (P2 : Type) where
  Beta : P2
  Delta : P2
  B : List P2

/-- The fields of `ProvingKey` that `Prove` reads. -/
structure ProvingKey (q : ℕ) (P1 P2 : Type) where
  Domain : Domain q
  G1 : ProvingKeyG1 P1
  G2 : ProvingKeyG2 P2

/-- A Groth16 proof: `Ar`, `Krs` in the first group, `Bs` in the second. -/
structure Proof (P1 P2 : Type) where
  Ar : P1
  Krs : P1
  Bs : P2
  deriving DecidableEq

/-- Errors `Prove` returns: the one it builds itself with `fmt.Errorf` (kept as the four values
substituted into the format string, in order), and errors handed through from `Solve` or
`SetRandom`. -/
inductive ProveError (E : Type) where
  | invalidWitnessSize (got : Int) (expected : Int) (pub : ℕ) (sec : ℕ)
  | external (e : E)
  deriving DecidableEq

/-- Ways a call of `Prove` ends: `ret p` is `return proof, nil`; `fail e` is `return nil, err`;
`crash` is a runtime panic or fatal runtime error (a `make` with a length above its capacity, a
slice bound out of range, an MSM on vectors of different lengths, a `select` that can never
proceed). -/
inductive Outcome (E P : Type) where
  | ret (proof : P)
  | fail (err : ProveError E)
  | crash
  deriving DecidableEq

/-- Results of the two successive `SetRandom` calls (for `_r`, then for `_s`). -/
structure RandomSource (q : ℕ) (E : Type) where
  first : Except E (ZMod q)
  second : Except E (ZMod q)

/-- Completion signals the `select` of `computeKRS` waits for. -/
inductive Signal where
  | krs2Done
  | arDone
  | bs1Done
  deriving DecidableEq, Repr

/-! ## Curve-library primitives -/

section Curve

variable {q : ℕ} {G : Type} [AddCommGroup G]

/-- Scalar multiplication of a point by a big integer (`ScalarMultiplication`). -/
def ScalarMultiplication (p : G) (s : ℕ) : G := s • p

/-- Multi-scalar multiplication (`MultiExp`): the sum of `scalars[i] * points[i]`, with the
scalars in regular form; it panics when the two vectors differ in length. -/
def MultiExp (points : List G) (scalars : List (ZMod q)) : Option G :=
  if points.length = scalars.length then
    some ((List.zipWith (fun p s => ScalarMultiplication p s.val) points scalars).sum)
  else none

/-- Batch scalar multiplication of one base point by several scalars
(`BatchScalarMultiplicationG1`). -/
def BatchScalarMultiplicationG1 (base : G) (scalars : List (ZMod q)) : List G :=
  scalars.map fun s => ScalarMultiplication base s.val

end Curve

/-! ## Go slice expressions -/

/-- Slice `s[lo:]`; out of range when `lo > len(s)`. -/
def sliceFrom {α : Type} (s : List α) (lo : ℕ) : Option (List α) :=
  if lo ≤ s.length then some (s.drop lo) else none

/-- Slice `s[:hi]`; out of range when `hi > len(s)`. -/
def sliceTo {α : Type} (s : List α) (hi : ℕ) : Option (List α) :=
  if hi ≤ s.length then some (s.take hi) else none

/-- Slice `s[lo:hi]`; out of range when `lo > hi` or `hi > len(s)`. -/
def slice {α : Type} (s : List α) (lo hi : ℕ) : Option (List α) :=
  if lo ≤ hi ∧ hi ≤ s.length then some ((s.take hi).drop lo) else none

/-! ## FFT primitives -/

section FFT

variable {q : ℕ}

/-- Value at `x` of the polynomial whose coefficient vector is `coeffs` (constant term
first). -/
def polyEval (coeffs : List (ZMod q)) (x : ZMod q) : ZMod q :=
  ((List.range coeffs.length).map fun j => coeffs.getD j 0 * x ^ j).sum

/-- Modelled from the spec: `domain.FFT`, of the `fft` package, which is not part of the
sources. Per the spec the forward FFT evaluates the polynomial with coefficient vector `a` at
the points of the subgroup (`coset = 0`) or of its coset (`coset = 1`): entry `i` of the result
is the value at `CosetShift ^ coset * Generator ^ i`. The spec gives the decimation argument no
effect on the result. -/
def Domain.FFT (domain : Domain q) (a : List (ZMod q)) (_decimation : Decimation)
    (coset : ℕ) : List (ZMod q) :=
  (List.range a.length).map fun i =>
    polyEval a (domain.CosetShift ^ coset * domain.Generator ^ i)

/-- Modelled from the spec: `domain.FFTInverse`, of the `fft` package, which is not part of the
sources. Per the spec the inverse FFT interpolates: it turns values on the subgroup
(`coset = 0`) or on its coset (`coset = 1`) into the coefficient vector, by the inverse
discrete Fourier transform followed by the removal of the coset shift. -/
def Domain.FFTInverse (domain : Domain q) (a : List (ZMod q)) (_decimation : Decimation)
    (coset : ℕ) : List (ZMod q) :=
  (List.range a.length).map fun j =>
    ((domain.CosetShift ^ coset)⁻¹) ^ j *
      ((domain.Cardinality : ZMod q)⁻¹ * polyEval a ((domain.Generator⁻¹) ^ j))

end FFT

/-! ## `computeH` -/

section ComputeH

variable {q : ℕ}

/-- The constant `minusTwoInv` of `computeH`: `SetUint64(2)`, then `Neg`, then `Inverse`. -/
def minusTwoInv (q : ℕ) : ZMod q := (-(2 : ZMod q))⁻¹

/-- The combine loop of `computeH`: `a[i] = (a[i] * b[i] - c[i]) * minusTwoInv` for every
`i < len(a)`; an index is out of range when `b` or `c` is shorter than `a`. -/
def combine (a b c : List (ZMod q)) : Option (List (ZMod q)) :=
  if a.length ≤ b.length ∧ a.length ≤ c.length then
    some ((List.range a.length).map fun i =>
      (a.getD i 0 * b.getD i 0 - c.getD i 0) * minusTwoInv q)
  else none

/-- Function `computeH`. `none` is a runtime panic (`make` with a negative length, index out
of range). -/
def computeH (a b c : List (ZMod q)) (domain : Domain q) : Option (List (ZMod q)) :=
  let n := a.length
  if domain.Cardinality < n then none
  else
    let padding : List (ZMod q) := List.replicate (domain.Cardinality - n) 0
    let a := a ++ padding
    let b := b ++ padding
    let c := c ++ padding
    let a := domain.FFTInverse a Decimation.DIF 0
    let b := domain.FFTInverse b Decimation.DIF 0
    let c := domain.FFTInverse c Decimation.DIF 0
    let a := domain.FFT a Decimation.DIT 1
    let b := domain.FFT b Decimation.DIT 1
    let c := domain.FFT c Decimation.DIT 1
    match combine a b c with
    | none => none
    | some a => some (domain.FFTInverse a Decimation.DIF 1)

end ComputeH

/-! ## `Prove` -/

section Prove

variable {q : ℕ} {E P1 P2 : Type} [AddCommGroup P1] [AddCommGroup P2]

/-- Task `computeBS1`: `bs1 = MultiExp(pk.G1.B, wireValues) + Beta + deltas[1]`. -/
def computeBS1 (pk : ProvingKey q P1 P2) (wireValues : List (ZMod q)) (deltas : List P1) :
    Option P1 := do
  let bs1 ← MultiExp pk.G1.B wireValues
  let bs1 := bs1 + pk.G1.Beta
  let d1 ← deltas[1]?
  pure (bs1 + d1)

/-- Task `computeAR1`: `ar = MultiExp(pk.G1.A, wireValues) + Alpha + deltas[0]`. -/
def computeAR1 (pk : ProvingKey q P1 P2) (wireValues : List (ZMod q)) (deltas : List P1) :
    Option P1 := do
  let ar ← MultiExp pk.G1.A wireValues
  let ar := ar + pk.G1.Alpha
  let d0 ← deltas[0]?
  pure (ar + d0)

/-- One `case` of the `select` in `computeKRS`: the point added to `krs` on each signal. -/
def krsCase (krs2 ar bs1 : P1) (r s : ℕ) : Signal → P1
  | Signal.krs2Done => krs2
  | Signal.arDone => ScalarMultiplication ar s
  | Signal.bs1Done => ScalarMultiplication bs1 r

/-- The loop `n := 3; for n != 0 { select {...}; n-- }` of `computeKRS`. `pending` lists the
signals not yet received, in the order in which the `select` will receive them. The result is
the final `krs`, the number of iterations run, and the signals left unreceived; `none` when
the `select` waits with no signal left. -/
def krsLoop (krs2 ar bs1 : P1) (r s : ℕ) : ℕ → List Signal → P1 → ℕ → Option (P1 × ℕ × List Signal)
  | 0, pending, krs, iters => some (krs, iters, pending)
  | _ + 1, [], _, _ => none
  | n + 1, sig :: pending, krs, iters =>
      krsLoop krs2 ar bs1 r s n pending (krs + krsCase krs2 ar bs1 r s sig) (iters + 1)

/-- Task `computeKRS`, given the results `ar`, `bs1` of the two tasks it waits for. -/
def computeKRS (r1cs : R1CS q E) (pk : ProvingKey q P1 P2) (wireValues h : List (ZMod q))
    (deltas : List P1) (ar bs1 : P1) (r s : ℕ) (order : List Signal) : Option P1 := do
  let krs2 ← MultiExp pk.G1.Z h
  let ws ← sliceFrom wireValues r1cs.NbPublicVariables
  let krs ← MultiExp pk.G1.K ws
  let d2 ← deltas[2]?
  let krs := krs + d2
  let (krs, _, _) ← krsLoop krs2 ar bs1 r s 3 order krs 0
  pure krs

/-- Task `computeBS2`, together with the record of its multi-scalar multiplications. The
first component is the point `Bs` the closure leaves in `proof.Bs`; the second lists, for
each `MultiExp` the closure runs, the slice of points and the slice of scalars passed to it:
on the split path the calls of the first goroutine, of the second goroutine and of the closure
itself, otherwise the single call. -/
def computeBS2Traced (pk : ProvingKey q P1 P2) (wireValues : List (ZMod q)) (s : ℕ) :
    Option (P2 × List (List P2 × List (ZMod q))) := do
  let bsSplit := pk.G2.B.length / 3
  let (Bs, calls) ←
    if bsSplit > 10 then do
      let points1 ← sliceTo pk.G2.B bsSplit
      let scalars1 ← sliceTo wireValues bsSplit
      let bs1 ← MultiExp points1 scalars1
      let points2 ← slice pk.G2.B bsSplit (bsSplit * 2)
      let scalars2 ← slice wireValues bsSplit (bsSplit * 2)
      let bs2 ← MultiExp points2 scalars2
      let points3 ← sliceFrom pk.G2.B (bsSplit * 2)
      let scalars3 ← sliceFrom wireValues (bsSplit * 2)
      let Bs ← MultiExp points3 scalars3
      let Bs := Bs + bs1
      pure (Bs + bs2, [(points1, scalars1), (points2, scalars2), (points3, scalars3)])
    else do
      let Bs ← MultiExp pk.G2.B wireValues
      pure (Bs, [(pk.G2.B, wireValues)])
  let deltaS := pk.G2.Delta
  let deltaS := ScalarMultiplication deltaS s
  let Bs := Bs + deltaS
  pure (Bs + pk.G2.Beta, calls)

/-- Task `computeBS2`: the point it leaves in `proof.Bs`. -/
def computeBS2 (pk : ProvingKey q P1 P2) (wireValues : List (ZMod q)) (s : ℕ) : Option P2 :=
  (computeBS2Traced pk wireValues s).map Prod.fst

/-- The part of `Prove` after the blinding scalars are sampled. `none` is a runtime panic. -/
def assemble (r1cs : R1CS q E) (pk : ProvingKey q P1 P2) (wireValues h : List (ZMod q))
    (_r _s : ZMod q) (order : List Signal) : Option (Proof P1 P2) := do
  let _kr := -(_r * _s)
  let r := _r.val
  let s := _s.val
  let deltas := BatchScalarMultiplicationG1 pk.G1.Delta [_r, _s, _kr]
  let ar ← computeAR1 pk wireValues deltas
  let bs1 ← computeBS1 pk wireValues deltas
  let krs ← computeKRS r1cs pk wireValues h deltas ar bs1 r s order
  let Bs ← computeBS2 pk wireValues s
  pure { Ar := ar, Krs := krs, Bs := Bs }

/-- Function `Prove`. Besides the arguments of the source it takes what the source draws from
its environment: the results `rnd` of the two `SetRandom` calls and the order `order` in which
the `select` of `computeKRS` receives its three signals. -/
def Prove (r1cs : R1CS q E) (pk : ProvingKey q P1 P2) (witness : List (ZMod q)) (force : Bool)
    (rnd : RandomSource q E) (order : List Signal) : Outcome E (Proof P1 P2) :=
  let expected : Int := (r1cs.NbPublicVariables : Int) - 1 + (r1cs.NbSecretVariables : Int)
  if (witness.length : Int) ≠ expected then
    Outcome.fail (ProveError.invalidWitnessSize (witness.length : Int) expected
      r1cs.NbPublicVariables r1cs.NbSecretVariables)
  else if pk.Domain.Cardinality < r1cs.NbConstraints then Outcome.crash
  else
    let sol := r1cs.Solve witness
    let a := (List.range r1cs.NbConstraints).map sol.a
    let b := (List.range r1cs.NbConstraints).map sol.b
    let c := (List.range r1cs.NbConstraints).map sol.c
    let wireValues := (List.range
      (r1cs.NbInternalVariables + r1cs.NbPublicVariables + r1cs.NbSecretVariables)).map
        sol.wireValues
    match sol.err, force with
    | some err, false => Outcome.fail (ProveError.external err)
    | _, _ =>
      match computeH a b c pk.Domain with
      | none => Outcome.crash
      | some h =>
        match rnd.first with
        | Except.error err => Outcome.fail (ProveError.external err)
        | Except.ok _r =>
          match rnd.second with
          | Except.error err => Outcome.fail (ProveError.external err)
          | Except.ok _s =>
            match assemble r1cs pk wireValues h _r _s order with
            | none => Outcome.crash
            | some proof => Outcome.ret proof

end Prove

/-! ## `isValid`, the error message -/

section Validity

variable {q : ℕ} {E P1 P2 G : Type}

/-- Subgroup check of the curve library (`IsInSubGroup`): the point lies in the subgroup of
prime order `q`, the order of the scalar field, that is `q` times the point is the identity. -/
def IsInSubGroup (q : ℕ) [AddCommGroup G] [DecidableEq G] (p : G) : Bool :=
  decide (q • p = 0)

/-- Method `isValid` of `Proof`. -/
def Proof.isValid (q : ℕ) [AddCommGroup P1] [AddCommGroup P2] [DecidableEq P1]
    [DecidableEq P2] (proof : Proof P1 P2) : Bool :=
  IsInSubGroup q proof.Ar && IsInSubGroup q proof.Krs && IsInSubGroup q proof.Bs

/-- Text of an error of `Prove`; for the size error, the format string of the source with its
four `%d` filled in, `external` standing for the text of an error passed through. -/
def ProveError.message (external : E → String) : ProveError E → String
  | ProveError.invalidWitnessSize got expected pub sec =>
      "invalid witness size, got " ++ toString got ++ ", expected " ++ toString expected ++
        " = " ++ toString pub ++ " (public - ONE_WIRE) + " ++ toString sec ++ " (secret)"
  | ProveError.external e => external e

end Validity

/-! ## Specification-side definitions -/

section SpecDefs

variable {q : ℕ} {E P1 P2 G : Type} [AddCommGroup G]

/-- Sum of `scalars[i] * points[i]` over every index of `points`. -/
def msm (points : List G) (scalars : List (ZMod q)) : G :=
  ∑ i in Finset.range points.length, (scalars.getD i 0).val • points.getD i 0

/-- Number of wires: the length of the wire-value vector `Prove` allocates. -/
def R1CS.nbWires (r1cs : R1CS q E) : ℕ :=
  r1cs.NbInternalVariables + r1cs.NbPublicVariables + r1cs.NbSecretVariables

/-- Well-formed proving key for a constraint system: every per-wire vector has one entry per
entry of the wire-value vector it is multiplied with (`K` is indexed by the wires after the
public ones), `Z` has one entry per domain position, and the domain is large enough for the
constraints. -/
def ProvingKey.WellFormed (pk : ProvingKey q P1 P2) (r1cs : R1CS q E) : Prop :=
  pk.G1.A.length = r1cs.nbWires ∧ pk.G1.B.length = r1cs.nbWires ∧
  pk.G2.B.length = r1cs.nbWires ∧
  pk.G1.K.length = r1cs.nbWires - r1cs.NbPublicVariables ∧
  pk.G1.Z.length = pk.Domain.Cardinality ∧
  r1cs.NbConstraints ≤ pk.Domain.Cardinality

instance (pk : ProvingKey q P1 P2) (r1cs : R1CS q E) : Decidable (pk.WellFormed r1cs) := by
  unfold ProvingKey.WellFormed; infer_instance

/-- The vector `wireValues` of `Prove` after the call of `Solve`. -/
def R1CS.solvedWires (r1cs : R1CS q E) (witness : List (ZMod q)) : List (ZMod q) :=
  (List.range r1cs.nbWires).map (r1cs.Solve witness).wireValues

/-- The vector `a` of `Prove` after the call of `Solve`. -/
def R1CS.solvedA (r1cs : R1CS q E) (witness : List (ZMod q)) : List (ZMod q) :=
  (List.range r1cs.NbConstraints).map (r1cs.Solve witness).a

/-- The vector `b` of `Prove` after the call of `Solve`. -/
def R1CS.solvedB (r1cs : R1CS q E) (witness : List (ZMod q)) : List (ZMod q) :=
  (List.range r1cs.NbConstraints).map (r1cs.Solve witness).b

/-- The vector `c` of `Prove` after the call of `Solve`. -/
def R1CS.solvedC (r1cs : R1CS q E) (witness : List (ZMod q)) : List (ZMod q) :=
  (List.range r1cs.NbConstraints).map (r1cs.Solve witness).c

/-- Modelled from the spec: what makes a `Domain` an evaluation domain, the constructor of
`fft.Domain` not being part of the sources. Per the spec the domain is a cyclic subgroup of
order `Cardinality`: the generator has order exactly `Cardinality`. -/
def Domain.IsEvaluationDomain (d : Domain q) : Prop :=
  0 < d.Cardinality ∧ d.Generator ^ d.Cardinality = 1 ∧
    ∀ k < d.Cardinality, 0 < k → d.Generator ^ k ≠ 1

instance (d : Domain q) : Decidable d.IsEvaluationDomain := by
  unfold Domain.IsEvaluationDomain; infer_instance

/-- The polynomial `A` is the interpolant of the vector `a`, padded with zeros, on the
subgroup: it has degree below `Cardinality` and takes the value `a[i]` (zero past the end of
`a`) at the `i`-th power of the generator. -/
def Domain.Interpolates (d : Domain q) (A : Polynomial (ZMod q)) (a : List (ZMod q)) : Prop :=
  A.degree < (d.Cardinality : WithBot ℕ) ∧
    ∀ i < d.Cardinality, A.eval (d.Generator ^ i) = a.getD i 0

/-- The vector `h` is the coefficient vector of the polynomial `H`, constant term first. -/
def IsCoefficientVector (H : Polynomial (ZMod q)) (h : List (ZMod q)) : Prop :=
  ∀ j, H.coeff j = h.getD j 0

/-- Every point of the proving key that `Prove` reads lies in the subgroup of order `q` of its
group. -/
def ProvingKey.InSubGroups [AddCommGroup P1] [AddCommGroup P2] (q' : ℕ)
    (pk : ProvingKey q P1 P2) : Prop :=
  (q' • pk.G1.Alpha = 0 ∧ q' • pk.G1.Beta = 0 ∧ q' • pk.G1.Delta = 0) ∧
  ((∀ p ∈ pk.G1.A, q' • p = 0) ∧ (∀ p ∈ pk.G1.B, q' • p = 0) ∧
    (∀ p ∈ pk.G1.Z, q' • p = 0) ∧ (∀ p ∈ pk.G1.K, q' • p = 0)) ∧
  (q' • pk.G2.Beta = 0 ∧ q' • pk.G2.Delta = 0 ∧ ∀ p ∈ pk.G2.B, q' • p = 0)

instance [AddCommGroup P1] [AddCommGroup P2] [DecidableEq P1] [DecidableEq P2] (q' : ℕ)
    (pk : ProvingKey q P1 P2) : Decidable (pk.InSubGroups q') := by
  unfold ProvingKey.InSubGroups; infer_instance

end SpecDefs

/-! ## Sample data -/

/-- The prime `17`, modulus of the sample scalar field. -/
instance fact_prime_seventeen : Fact (Nat.Prime 17) := ⟨by norm_num⟩

/-- Sample domain over `ZMod 17`: the subgroup of order `4` generated by `4`, with coset shift
`2` (`2 ^ 4 = -1`). -/
def sampleDomain : Domain 17 := { Cardinality := 4, Generator := 4, CosetShift := 2 }

/-- Sample solver: public wire `x`, secret wire `y`, internal wire `x * y`, and the constraints
`x * y = xy`, `xy * 1 = xy`, `y * y = 9`; the error code `1` reports an unsatisfied
constraint. -/
def sampleSolve (witness : List (ZMod 17)) : Solved 17 ℕ :=
  let x := witness.getD 0 0
  let y := witness.getD 1 0
  { a := fun i => [x, x * y, y].getD i 0
    b := fun i => [y, 1, y].getD i 0
    c := fun i => [x * y, x * y, 9].getD i 0
    wireValues := fun i => [1, x, y, x * y].getD i 0
    err := if y * y = 9 then none else some 1 }

/-- Sample constraint system: two public wires (the constant wire and `x`), one secret wire,
one internal wire, three constraints. -/
def sampleR1CS : R1CS 17 ℕ :=
  { NbPublicVariables := 2, NbSecretVariables := 1, NbInternalVariables := 1,
    NbConstraints := 3, Solve := sampleSolve }

/-- Sample proving key, with points in the cyclic group `ZMod 34`, whose subgroup of prime
order `17` is generated by `2`. -/
def samplePK : ProvingKey 17 (ZMod 34) (ZMod 34) :=
  { Domain := sampleDomain
    G1 := { Alpha := 2, Beta := 4, Delta := 6, A := [2, 4, 6, 8], B := [10, 12, 14, 16],
            Z := [18, 20, 22, 24], K := [26, 28] }
    G2 := { Beta := 8, Delta := 10, B := [2, 6, 10, 14] } }

/-- Sample proving key whose group-two vector `B` has `33` entries, the shortest length for
which `computeBS2` splits the multi-scalar multiplication. -/
def samplePKSplit : ProvingKey 17 (ZMod 34) (ZMod 34) :=
  { samplePK with G2 := { Beta := 8, Delta := 10, B := (List.range 33).map fun i => (2 * i : ℕ) } }

/-- Sample random source: both draws succeed, with `r = 3` and `s = 5`. -/
def sampleRandom : RandomSource 17 ℕ := { first := Except.ok 3, second := Except.ok 5 }

/-- Sample random source whose first draw fails with error code `7`. -/
def sampleRandomFailsFirst : RandomSource 17 ℕ :=
  { first := Except.error 7, second := Except.ok 5 }

/-- Sample random source whose second draw fails with error code `7`. -/
def sampleRandomFailsSecond : RandomSource 17 ℕ :=
  { first := Except.ok 3, second := Except.error 7 }

/-- Sample order of reception of the three signals. -/
def sampleOrder : List Signal := [Signal.arDone, Signal.bs1Done, Signal.krs2Done]

/-- Sample wire-value vector of length `33`, for `samplePKSplit`. -/
def sampleWiresSplit : List (ZMod 17) := (List.range 33).map fun i => (i : ZMod 17)

/-- Second sample random source: both draws succeed, with `r = 4` and `s = 6`. -/
def sampleRandomOther : RandomSource 17 ℕ := { first := Except.ok 4, second := Except.ok 6 }

/-- Sample proving key whose group-two vector `B` has `34` entries: `computeBS2` splits it,
and `34` is not a multiple of three. -/
def samplePKUneven : ProvingKey 17 (ZMod 34) (ZMod 34) :=
  { samplePK with G2 := { Beta := 8, Delta := 10, B := (List.range 34).map fun i => (2 * i : ℕ) } }

/-- Sample proving key whose group-two vector `B` has `32` entries, the longest length for
which `computeBS2` does not split. -/
def samplePKSingle : ProvingKey 17 (ZMod 34) (ZMod 34) :=
  { samplePK with G2 := { Beta := 8, Delta := 10, B := (List.range 32).map fun i => (2 * i : ℕ) } }

/-- Sample wire-value vector of length `34`, for `samplePKUneven`. -/
def sampleWiresUneven : List (ZMod 17) := (List.range 34).map fun i => (i : ZMod 17)

end Groth16

/-!
# The decompression circuit (`std/compress/lzss/snark.go`)

Shallow embedding of `Decompress` and its helpers, as the function from the values assigned to
the inputs of the circuit to the values of its outputs.

* A `frontend.Variable` is the element of `ZMod p` assigned to it, `p` standing for the
  modulus of the scalar field of the curve in use. `api.Add`, `api.Sub`, `api.Mul`, `api.Neg`
  are the field operations; the other methods of `frontend.API` that the circuit calls are
  defined below.
* A result is an `Option`: `none` stands for no value, either because building the circuit
  panics or because the constraints (assertions, look-ups at an index outside the table) are
  not satisfied by the assignment.
* Functions, types and constants that `snark.go` uses and that are declared in other files
  (`compress.ReadNum`, `compress.NumReader`, `augmentDict`, `initBackRefTypes`, the symbols
  `symbolLong`, `symbolShort`, `symbolDict`, the method `EvaluatePlonkExpression`) are
  parameters.
-/

namespace Lzss

/-! ## Primitives of the constraint system -/

section Primitives

variable {p : ℕ}

/-- The interface value `api`, as far as `snark.go` inspects it: whether it also implements
`frontend.PlonkAPI`, and then its method `EvaluatePlonkExpression`. -/
structure API (p : ℕ) where
  PlonkAPI : Option (ZMod p → ZMod p → ℤ → ℤ → ℤ → ℤ → ZMod p)

/-- Method `api.IsZero`: `1` if the argument is zero, `0` otherwise. -/
def IsZero (x : ZMod p) : ZMod p := if x = 0 then 1 else 0

/-- Method `api.Select`: `i1` if `b` is `1`, `i2` if `b` is `0`; the method constrains `b` to
be boolean. -/
def Select (b i1 i2 : ZMod p) : Option (ZMod p) :=
  if b = 1 then some i1 else if b = 0 then some i2 else none

/-- Method `api.MulAcc`: `a + b * c`. -/
def MulAcc (a b c : ZMod p) : ZMod p := a + b * c

/-- Method `api.AssertIsEqual`. -/
def AssertIsEqual (a b : ZMod p) : Option Unit := if a = b then some () else none

/-- Method `api.AssertIsBoolean`. -/
def AssertIsBoolean (a : ZMod p) : Option Unit := if a = 0 ∨ a = 1 then some () else none

/-- Method `api.AssertIsCrumb`: the value is one of `0`, `1`, `2`, `3`. -/
def AssertIsCrumb (a : ZMod p) : Option Unit :=
  if a = 0 ∨ a = 1 ∨ a = 2 ∨ a = 3 then some () else none

/-- A look-up table (`logderivlookup.Table`) is the list of the values inserted, in order;
`Lookup(i)[0]` is the entry at index `i`, and no assignment satisfies a look-up outside the
table. -/
def Lookup (table : List (ZMod p)) (i : ZMod p) : Option (ZMod p) := table[i.val]?

end Primitives

/-! ## Parameters: what `snark.go` takes from other files -/

/-- Type `backrefType`, with the fields `snark.go` reads, as natural numbers. -/
structure BackrefType where
  delimiter : ℕ
  nbBitsAddress : ℕ
  nbBitsLength : ℕ
  nbBitsBackRef : ℕ
  deriving DecidableEq

/-- Functions and constants declared outside `snark.go`. `NumReaderNext c numNbBits wordNbBits k`
is the value of call number `k` (from `0`) of `Next` on
`compress.NewNumReader(api, c, numNbBits, wordNbBits)`; `initBackRefTypes` returns the short,
the long and the dictionary back-reference type, in this order. -/
structure Externals (p : ℕ) where
  ReadNum : List (ZMod p) → ℕ → ℕ → ZMod p
  NumReaderNext : List (ZMod p) → ℕ → ℕ → ℕ → ZMod p
  augmentDict : List ℕ → List ℕ
  initBackRefTypes : ℕ → ℤ → BackrefType × BackrefType × BackrefType
  symbolLong : ℤ
  symbolShort : ℤ
  symbolDict : ℤ

/-! ## Helpers of `snark.go` -/

section Helpers

variable {p : ℕ}

/-- Function `evaluatePlonkExpression`. -/
def evaluatePlonkExpression (api : API p) (a b : ZMod p) (aCoeff bCoeff mCoeff constant : ℤ) :
    ZMod p :=
  match api.PlonkAPI with
  | some EvaluatePlonkExpression => EvaluatePlonkExpression a b aCoeff bCoeff mCoeff constant
  | none => a * (aCoeff : ZMod p) + b * (bCoeff : ZMod p) + (mCoeff : ZMod p) * a * b +
      (constant : ZMod p)

/-- Function `checkInputRange`. For `wordNbBits > 2` every word is looked up in a table of
`1 << wordNbBits` entries (`0` entries when the shift leaves the range of a 64-bit `int`); for
`wordNbBits` neither `1` nor `2` nor above, the function panics. -/
def checkInputRange (c : List (ZMod p)) (wordNbBits : ℤ) : Option Unit :=
  if wordNbBits > 2 then
    let cRangeTable : List (ZMod p) :=
      List.replicate (if wordNbBits < 63 then 2 ^ wordNbBits.toNat else 0) 0
    if c.all fun x => (Lookup cRangeTable x).isSome then some () else none
  else if wordNbBits = 1 then
    if c.all fun x => (AssertIsBoolean x).isSome then some () else none
  else if wordNbBits = 2 then
    if c.all fun x => (AssertIsCrumb x).isSome then some () else none
  else none

/-- Function `sliceToTable`. -/
def sliceToTable (slice : List (ZMod p)) : List (ZMod p) := slice

/-- Function `combineIntoBytes`. -/
def combineIntoBytes (ext : Externals p) (c : List (ZMod p)) (wordNbBits : ℕ) :
    List (ZMod p) :=
  (List.range c.length).map fun i => ext.NumReaderNext c 8 wordNbBits i

/-- Function `initAddrTable`. Entry `i` accumulates, over the back-reference types `j`,
`IsZero(bytes[i] - delimiter j) * readers[j].Next()`. -/
def initAddrTable (ext : Externals p) (bytes c : List (ZMod p)) (wordNbBits : ℕ)
    (backrefs : List BackrefType) : Option (List (ZMod p)) :=
  match backrefs with
  | [] => none
  | first :: _ =>
    if backrefs.all fun b => b.nbBitsLength = first.nbBitsLength then
      let delimAndLenNbWords := (8 + first.nbBitsLength) / wordNbBits
      let readerC := if c.length ≥ delimAndLenNbWords then c.drop delimAndLenNbWords else []
      some ((List.range c.length).map fun i =>
        backrefs.foldl (fun entry b =>
          let isSymb := IsZero (bytes.getD i 0 - (b.delimiter : ZMod p))
          MulAcc entry isSymb (ext.NumReaderNext readerC b.nbBitsAddress wordNbBits i)) 0)
    else none

end Helpers

/-! ## `Decompress` -/

section Decompress

variable {p : ℕ}

/-- What the loop of `Decompress` reads and does not change. -/
structure Context (p : ℕ) where
  api : API p
  symbolLong : ℤ
  symbolShort : ℤ
  symbolDict : ℤ
  fileCompressionMode : ZMod p
  decompressionNotBypassed : ZMod p
  bytesTable : List (ZMod p)
  addrTable : List (ZMod p)
  dictLen : ℕ
  cLength : ZMod p
  byteNbWords : ℕ
  shortBrNbWords : ℕ
  longBrNbWords : ℕ
  dictBrNbWords : ℕ

/-- The state variables of the loop of `Decompress`, the table `outTable`, and the entries of
`d` written so far. The flag `eofIsZeroConstant` is the Go comparison `eof == 0`: it holds
while `eof` is still the constant `frontend.Variable(0)` it is initialised with, and no more
once `eof` has been assigned the result of `api.IsZero`. -/
structure LoopState (p : ℕ) where
  inI : ZMod p
  copyLen : ZMod p
  copyLen01 : ZMod p
  eof : ZMod p
  dLength : ZMod p
  eofIsZeroConstant : Bool
  outTable : List (ZMod p)
  d : List (ZMod p)
  deriving DecidableEq

/-- Values computed inside one iteration of the loop. -/
structure IterValues (p : ℕ) where
  curr : ZMod p
  currIndicatesLongBr : ZMod p
  currIndicatesShortBr : ZMod p
  currIndicatesDr : ZMod p
  copying : ZMod p
  inIDelta : ZMod p
  eofNow : ZMod p
  dOut : ZMod p
  deriving DecidableEq

/-- The value `decompressionNotBypassed`: `api.Sub(1, api.IsZero(fileCompressionMode))`. -/
def decompressionNotBypassed (fileCompressionMode : ZMod p) : ZMod p :=
  1 - IsZero fileCompressionMode

/-- The assertion on the file compression mode:
`api.AssertIsEqual(api.Mul(fcm, fcm), api.Mul(fcm, wordNbBits))`. -/
def assertFileCompressionMode (fileCompressionMode : ZMod p) (wordNbBits : ℤ) : Option Unit :=
  AssertIsEqual (fileCompressionMode * fileCompressionMode)
    (fileCompressionMode * (wordNbBits : ZMod p))

/-- The value `copyLen01`: `api.IsZero(api.MulAcc(api.Neg(copyLen), copyLen, copyLen))`. -/
def copyLen01Of (copyLen : ZMod p) : ZMod p := IsZero (MulAcc (-copyLen) copyLen copyLen)

/-- The value `copying`: `evaluatePlonkExpression(api, copyLen01, copyLen, -1, 0, 1, 1)`. -/
def copyingOf (api : API p) (copyLen01 copyLen : ZMod p) : ZMod p :=
  evaluatePlonkExpression api copyLen01 copyLen (-1) 0 1 1

/-- The update of `inI`: `api.Add(inI, inIDelta)` if `eof == 0` in Go, and
`api.Add(inI, evaluatePlonkExpression(api, inIDelta, eof, 1, 0, -1, 0))` otherwise. -/
def updateInI (api : API p) (st : LoopState p) (inIDelta : ZMod p) : ZMod p :=
  if st.eofIsZeroConstant then st.inI + inIDelta
  else st.inI + evaluatePlonkExpression api inIDelta st.eof 1 0 (-1) 0

/-- The body of the loop `for outI := range d` of `Decompress`. -/
def loopBody (ctx : Context p) (outI : ℕ) (st : LoopState p) :
    Option (LoopState p × IterValues p) := do
  let curr ← Lookup ctx.bytesTable st.inI
  let currMinusLong := curr * ctx.decompressionNotBypassed - (ctx.symbolLong : ZMod p)
  let currIndicatesLongBr := IsZero currMinusLong
  let currIndicatesShortBr :=
    IsZero (currMinusLong - ((ctx.symbolShort - ctx.symbolLong : ℤ) : ZMod p))
  let currIndicatesDr :=
    IsZero (currMinusLong - ((ctx.symbolDict - ctx.symbolLong : ℤ) : ZMod p))
  let currIndicatesBr := currIndicatesLongBr + currIndicatesShortBr
  let currIndicatesCp := currIndicatesBr + currIndicatesDr
  let currIndicatedCpLen :=
    1 + (← Lookup ctx.bytesTable (st.inI + (ctx.byteNbWords : ZMod p)))
  let currIndicatedCpAddr ← Lookup ctx.addrTable st.inI
  let copyLen ← Select st.copyLen01 (currIndicatesCp * currIndicatedCpLen) (st.copyLen - 1)
  let copyLen01 := copyLen01Of copyLen
  let copying := copyingOf ctx.api copyLen01 copyLen
  let copyAddr :=
    ((((outI : ℤ) + (ctx.dictLen : ℤ) - 1 : ℤ) : ZMod p) - currIndicatedCpAddr) *
      currIndicatesBr
  let dictCopyAddr := currIndicatedCpAddr + (currIndicatedCpLen - copyLen)
  let copyAddr := MulAcc copyAddr currIndicatesDr dictCopyAddr
  let toCopy ← Lookup st.outTable copyAddr
  let dOut ← Select copying toCopy curr
  let outTable := st.outTable ++ [dOut]
  let inIDelta :=
    currIndicatesLongBr * (ctx.longBrNbWords : ZMod p) +
      currIndicatesShortBr * (ctx.shortBrNbWords : ZMod p)
  let inIDelta := MulAcc inIDelta currIndicatesDr (ctx.dictBrNbWords : ZMod p)
  let inIDelta ← Select copying (inIDelta * copyLen01) (ctx.byteNbWords : ZMod p)
  let inI := updateInI ctx.api st inIDelta
  let eofNow := IsZero (inI - ctx.cLength)
  let dLength := st.dLength + (eofNow - st.eof) * ((outI + 1 : ℕ) : ZMod p)
  pure
    ({ inI := inI, copyLen := copyLen, copyLen01 := copyLen01, eof := eofNow,
       dLength := dLength, eofIsZeroConstant := false, outTable := outTable,
       d := st.d ++ [dOut] },
     { curr := curr, currIndicatesLongBr := currIndicatesLongBr,
       currIndicatesShortBr := currIndicatesShortBr, currIndicatesDr := currIndicatesDr,
       copying := copying, inIDelta := inIDelta, eofNow := eofNow, dOut := dOut })

/-- The state after the first `k` iterations of the loop, from the state `st`. -/
def iterate (ctx : Context p) (st : LoopState p) : ℕ → Option (LoopState p)
  | 0 => some st
  | k + 1 => do
    let s ← iterate ctx st k
    let (s', _) ← loopBody ctx k s
    pure s'

/-- The part of `Decompress` before the loop: the context of the loop and its initial
state. -/
def setup (api : API p) (ext : Externals p) (c : List (ZMod p)) (cLength : ZMod p)
    (dict : List ℕ) (level : ℤ) : Option (Context p × LoopState p) := do
  let wordNbBits := level
  checkInputRange c wordNbBits
  let w := wordNbBits.toNat
  let dict := ext.augmentDict dict
  let (shortBackRefType, longBackRefType, dictBackRefType) :=
    ext.initBackRefTypes dict.length level
  let shortBrNbWords := shortBackRefType.nbBitsBackRef / w
  let longBrNbWords := longBackRefType.nbBitsBackRef / w
  let dictBrNbWords := dictBackRefType.nbBitsBackRef / w
  let byteNbWords := 8 / w
  AssertIsEqual (ext.ReadNum c byteNbWords w) 0
  let fileCompressionMode := ext.ReadNum (← Groth16.sliceFrom c byteNbWords) byteNbWords w
  let c ← Groth16.sliceFrom c (2 * byteNbWords)
  let cLength := cLength - ((2 * byteNbWords : ℕ) : ZMod p)
  assertFileCompressionMode fileCompressionMode wordNbBits
  let outTable : List (ZMod p) := dict.map fun b => (b : ZMod p)
  let bytes := combineIntoBytes ext c w
  let bytesTable := sliceToTable bytes ++ [0]
  let addrTable ← initAddrTable ext bytes c w
    [shortBackRefType, longBackRefType, dictBackRefType]
  pure
    ({ api := api, symbolLong := ext.symbolLong, symbolShort := ext.symbolShort,
       symbolDict := ext.symbolDict, fileCompressionMode := fileCompressionMode,
       decompressionNotBypassed := decompressionNotBypassed fileCompressionMode,
       bytesTable := bytesTable, addrTable := addrTable, dictLen := dict.length,
       cLength := cLength, byteNbWords := byteNbWords, shortBrNbWords := shortBrNbWords,
       longBrNbWords := longBrNbWords, dictBrNbWords := dictBrNbWords },
     { inI := 0, copyLen := 0, copyLen01 := 1, eof := 0, dLength := 0,
       eofIsZeroConstant := true, outTable := outTable, d := [] })

/-- Function `Decompress`: the returned `dLength` and the entries written to `d`, whose
length `dLen` is the number of iterations. The returned `err` is always `nil`. -/
def Decompress (api : API p) (ext : Externals p) (c : List (ZMod p)) (cLength : ZMod p)
    (dLen : ℕ) (dict : List ℕ) (level : ℤ) : Option (ZMod p × List (ZMod p)) := do
  let (ctx, st) ← setup api ext c cLength dict level
  let st ← iterate ctx st dLen
  pure (st.dLength, st.d)

end Decompress

/-! ## Specification-side definitions -/

/-- The method `EvaluatePlonkExpression` of an `api` that implements `frontend.PlonkAPI`
computes `qL * a + qR * b + qM * a * b + qC`. -/
def API.EvaluatesPlonkExpression {p : ℕ} (api : API p) : Prop :=
  ∀ f, api.PlonkAPI = some f → ∀ (a b : ZMod p) (qL qR qM qC : ℤ),
    f a b qL qR qM qC = (qL : ZMod p) * a + (qR : ZMod p) * b + (qM : ZMod p) * (a * b) +
      (qC : ZMod p)

/-! ## Sample data for the decompression circuit -/

/-- The prime `257`, modulus of the sample field: every byte is a distinct element. -/
instance fact_prime_two_hundred_fifty_seven : Fact (Nat.Prime 257) := ⟨by norm_num⟩

/-- Sample number reader: the big-endian number made of the first `nbWords` words. -/
def sampleReadNum (c : List (ZMod 257)) (nbWords wordNbBits : ℕ) : ZMod 257 :=
  (c.take nbWords).foldl (fun acc x => acc * (2 : ZMod 257) ^ wordNbBits + x) 0

/-- Sample parameters: symbols `253`, `254`, `255`, and a dictionary extended by them. -/
def sampleExternals : Externals 257 :=
  { ReadNum := sampleReadNum
    NumReaderNext := fun c numNbBits wordNbBits k =>
      sampleReadNum (c.drop k) (numNbBits / wordNbBits) wordNbBits
    augmentDict := fun dict => dict ++ [253, 254, 255]
    initBackRefTypes := fun _ _ =>
      ({ delimiter := 254, nbBitsAddress := 8, nbBitsLength := 8, nbBitsBackRef := 24 },
       { delimiter := 253, nbBitsAddress := 16, nbBitsLength := 8, nbBitsBackRef := 32 },
       { delimiter := 255, nbBitsAddress := 8, nbBitsLength := 8, nbBitsBackRef := 24 })
    symbolLong := 253
    symbolShort := 254
    symbolDict := 255 }

/-- Sample `api` that does not implement `frontend.PlonkAPI`. -/
def sampleAPI : API 257 := { PlonkAPI := none }

/-- Sample `api` that implements `frontend.PlonkAPI`, its method computing
`qL * a + qR * b + qM * a * b + qC`. -/
def samplePlonkAPI : API 257 :=
  { PlonkAPI := some fun a b qL qR qM qC =>
      (qL : ZMod 257) * a + (qR : ZMod 257) * b + (qM : ZMod 257) * (a * b) + (qC : ZMod 257) }

/-- Sample compressed stream, by words of eight bits: version `0`, compression mode `0` (no
compression), the three bytes `5`, `7`, `9`, then padding. -/
def sampleStream : List (ZMod 257) := [0, 0, 5, 7, 9, 0, 0]

/-- Sample context and initial state: what `setup` returns on the sample stream of length
`5`, the dictionary `[1, 2, 3]` and words of eight bits. -/
def sampleSetup : Option (Context 257 × LoopState 257) :=
  setup sampleAPI sampleExternals sampleStream 5 [1, 2, 3] 8

/-- The context `setup` returns on the sample input. -/
def sampleContext : Context 257 :=
  { api := sampleAPI, symbolLong := 253, symbolShort := 254, symbolDict := 255,
    fileCompressionMode := 0, decompressionNotBypassed := 0,
    bytesTable := [5, 7, 9, 0, 0, 0], addrTable := [0, 0, 0, 0, 0], dictLen := 6,
    cLength := 3, byteNbWords := 1, shortBrNbWords := 3, longBrNbWords := 4,
    dictBrNbWords := 3 }

/-- The initial state of the loop on the sample input. -/
def sampleInitial : LoopState 257 :=
  { inI := 0, copyLen := 0, copyLen01 := 1, eof := 0, dLength := 0,
    eofIsZeroConstant := true, outTable := [1, 2, 3, 253, 254, 255], d := [] }

/-- The state of the loop on the sample input after one iteration. -/
def sampleStateOne : LoopState 257 :=
  { inI := 1, copyLen := 0, copyLen01 := 1, eof := 0, dLength := 0,
    eofIsZeroConstant := false, outTable := [1, 2, 3, 253, 254, 255, 5], d := [5] }

/-- The state of the loop on the sample input after two iterations. -/
def sampleStateTwo : LoopState 257 :=
  { inI := 2, copyLen := 0, copyLen01 := 1, eof := 0, dLength := 0,
    eofIsZeroConstant := false, outTable := [1, 2, 3, 253, 254, 255, 5, 7], d := [5, 7] }

/-- The values computed in the second iteration of the loop on the sample input. -/
def sampleValuesTwo : IterValues 257 :=
  { curr := 7, currIndicatesLongBr := 0, currIndicatesShortBr := 0, currIndicatesDr := 0,
    copying := 0, inIDelta := 1, eofNow := 0, dOut := 7 }

/-- The state of the loop on the sample input after three iterations: the input is
exhausted. -/
def sampleStateThree : LoopState 257 :=
  { inI := 3, copyLen := 0, copyLen01 := 1, eof := 1, dLength := 3,
    eofIsZeroConstant := false, outTable := [1, 2, 3, 253, 254, 255, 5, 7, 9],
    d := [5, 7, 9] }

/-- The state of the loop on the sample input after four iterations. -/
def sampleStateFour : LoopState 257 :=
  { inI := 3, copyLen := 0, copyLen01 := 1, eof := 1, dLength := 3,
    eofIsZeroConstant := false, outTable := [1, 2, 3, 253, 254, 255, 5, 7, 9, 0],
    d := [5, 7, 9, 0] }

/-- The state of the loop on the sample input after five iterations. -/
def sampleStateFive : LoopState 257 :=
  { inI := 3, copyLen := 0, copyLen01 := 1, eof := 1, dLength := 3,
    eofIsZeroConstant := false, outTable := [1, 2, 3, 253, 254, 255, 5, 7, 9, 0, 0],
    d := [5, 7, 9, 0, 0] }

end Lzss

namespace Groth16

/-! ## Lemmas -/

section Lemmas

variable {q : ℕ} {E P1 P2 G : Type} [AddCommGroup P1] [AddCommGroup P2] [AddCommGroup G]

theorem Domain.length_FFT (d : Domain q) (a : List (ZMod q)) (dec : Decimation) (k : ℕ) :
    (d.FFT a dec k).length = a.length := by
  simp [Domain.FFT]

theorem Domain.length_FFTInverse (d : Domain q) (a : List (ZMod q)) (dec : Decimation) (k : ℕ) :
    (d.FFTInverse a dec k).length = a.length := by
  simp [Domain.FFTInverse]

theorem combine_eq_some (a b c : List (ZMod q)) (hb : a.length ≤ b.length)
    (hc : a.length ≤ c.length) :
    combine a b c = some ((List.range a.length).map fun i =>
      (a.getD i 0 * b.getD i 0 - c.getD i 0) * minusTwoInv q) := by
  simp [combine, hb, hc]

/-- Closed form of `computeH` on inputs on which it does not panic. -/
theorem computeH_eq_some (a b c : List (ZMod q)) (d : Domain q) (hn : a.length ≤ d.Cardinality)
    (hb : a.length ≤ b.length) (hc : a.length ≤ c.length) :
    computeH a b c d = some (d.FFTInverse
      ((List.range d.Cardinality).map fun i =>
        ((d.FFT (d.FFTInverse (a ++ List.replicate (d.Cardinality - a.length) 0)
            Decimation.DIF 0) Decimation.DIT 1).getD i 0 *
          (d.FFT (d.FFTInverse (b ++ List.replicate (d.Cardinality - a.length) 0)
            Decimation.DIF 0) Decimation.DIT 1).getD i 0 -
          (d.FFT (d.FFTInverse (c ++ List.replicate (d.Cardinality - a.length) 0)
            Decimation.DIF 0) Decimation.DIT 1).getD i 0) * minusTwoInv q)
      Decimation.DIF 1) := by
  unfold computeH
  simp only [not_lt.mpr hn, if_false]
  rw [combine_eq_some]
  · simp only [Domain.length_FFT, Domain.length_FFTInverse, List.length_append,
      List.length_replicate]
    rw [Nat.add_sub_cancel' hn]
  · simp only [Domain.length_FFT, Domain.length_FFTInverse, List.length_append,
      List.length_replicate]
    omega
  · simp only [Domain.length_FFT, Domain.length_FFTInverse, List.length_append,
      List.length_replicate]
    omega

theorem computeH_length (a b c h : List (ZMod q)) (d : Domain q)
    (hh : computeH a b c d = some h) : h.length = d.Cardinality := by
  simp only [computeH] at hh
  split at hh
  · simp at hh
  · rename_i hn
    split at hh
    · simp at hh
    · rename_i v hv
      simp only [Option.some.injEq] at hh
      subst hh
      unfold combine at hv
      split at hv
      · simp only [Option.some.injEq] at hv
        subst hv
        simp [Domain.length_FFT, Domain.length_FFTInverse]
        omega
      · simp at hv

theorem sum_zipWith_eq_msm (points : List G) (scalars : List (ZMod q))
    (h : points.length = scalars.length) :
    (List.zipWith (fun p s => ScalarMultiplication p s.val) points scalars).sum =
      msm points scalars := by
  induction points generalizing scalars with
  | nil => simp [msm]
  | cons p ps ih =>
    cases scalars with
    | nil => simp at h
    | cons s ss =>
      simp only [List.length_cons, Nat.add_right_cancel_iff] at h
      simp only [List.zipWith_cons_cons, List.sum_cons]
      rw [ih ss h]
      simp only [msm, List.length_cons, Finset.sum_range_succ', List.getD_cons_succ,
        List.getD_cons_zero, ScalarMultiplication]
      rw [add_comm]

theorem MultiExp_eq_some (points : List G) (scalars : List (ZMod q))
    (h : points.length = scalars.length) :
    MultiExp points scalars = some (msm points scalars) := by
  simp [MultiExp, h, sum_zipWith_eq_msm]

theorem MultiExp_eq_none (points : List G) (scalars : List (ZMod q))
    (h : points.length ≠ scalars.length) :
    MultiExp points scalars = (none : Option G) := by
  simp [MultiExp, h]

theorem msm_append (p₁ p₂ : List G) (s₁ s₂ : List (ZMod q)) (h : p₁.length = s₁.length) :
    msm (p₁ ++ p₂) (s₁ ++ s₂) = msm p₁ s₁ + msm p₂ s₂ := by
  simp only [msm, List.length_append, Finset.sum_range_add]
  congr 1
  · apply Finset.sum_congr rfl
    intro i hi
    rw [Finset.mem_range] at hi
    rw [List.getD_append _ _ _ _ hi, List.getD_append _ _ _ _ (h ▸ hi)]
  · apply Finset.sum_congr rfl
    intro i _
    rw [List.getD_append_right _ _ _ _ (Nat.le_add_right _ _),
      List.getD_append_right _ _ _ _ (h ▸ Nat.le_add_right _ _), h]
    simp

omit [AddCommGroup P2] in
theorem computeAR1_eq (pk : ProvingKey q P1 P2) (w : List (ZMod q)) (r s kr : ZMod q)
    (h : pk.G1.A.length = w.length) :
    computeAR1 pk w (BatchScalarMultiplicationG1 pk.G1.Delta [r, s, kr]) =
      some (msm pk.G1.A w + pk.G1.Alpha + r.val • pk.G1.Delta) := by
  simp [computeAR1, MultiExp_eq_some _ _ h, BatchScalarMultiplicationG1, ScalarMultiplication]

omit [AddCommGroup P2] in
theorem computeBS1_eq (pk : ProvingKey q P1 P2) (w : List (ZMod q)) (r s kr : ZMod q)
    (h : pk.G1.B.length = w.length) :
    computeBS1 pk w (BatchScalarMultiplicationG1 pk.G1.Delta [r, s, kr]) =
      some (msm pk.G1.B w + pk.G1.Beta + s.val • pk.G1.Delta) := by
  simp [computeBS1, MultiExp_eq_some _ _ h, BatchScalarMultiplicationG1, ScalarMultiplication]

/-- The six orders in which three signals can be received. -/
theorem perm_three (order : List Signal)
    (h : order.Perm [Signal.krs2Done, Signal.arDone, Signal.bs1Done]) :
    order = [Signal.krs2Done, Signal.arDone, Signal.bs1Done] ∨
    order = [Signal.krs2Done, Signal.bs1Done, Signal.arDone] ∨
    order = [Signal.arDone, Signal.krs2Done, Signal.bs1Done] ∨
    order = [Signal.arDone, Signal.bs1Done, Signal.krs2Done] ∨
    order = [Signal.bs1Done, Signal.krs2Done, Signal.arDone] ∨
    order = [Signal.bs1Done, Signal.arDone, Signal.krs2Done] := by
  have hl := h.length_eq
  match order, hl with
  | [x, y, z], _ =>
    revert h
    cases x <;> cases y <;> cases z <;> decide

theorem krsLoop_perm (krs2 ar bs1 krs : P1) (r s : ℕ) (order : List Signal)
    (h : order.Perm [Signal.krs2Done, Signal.arDone, Signal.bs1Done]) :
    krsLoop krs2 ar bs1 r s 3 order krs 0 =
      some (krs + krs2 + s • ar + r • bs1, 3, []) := by
  rcases perm_three order h with h | h | h | h | h | h <;> subst h <;>
    simp only [krsLoop, krsCase, ScalarMultiplication, Option.some.injEq, Prod.mk.injEq,
      and_true] <;> abel

theorem msm_take_drop (points : List G) (scalars : List (ZMod q)) (k : ℕ)
    (h : points.length = scalars.length) :
    msm points scalars =
      msm (points.take k) (scalars.take k) + msm (points.drop k) (scalars.drop k) := by
  conv_lhs => rw [← List.take_append_drop k points, ← List.take_append_drop k scalars]
  exact msm_append _ _ _ _ (by simp [h])

theorem msm_split_three (points : List G) (scalars : List (ZMod q)) (k : ℕ)
    (h : points.length = scalars.length) :
    msm points scalars =
      msm (points.drop (k * 2)) (scalars.drop (k * 2)) + msm (points.take k) (scalars.take k) +
        msm ((points.take (k * 2)).drop k) ((scalars.take (k * 2)).drop k) := by
  rw [msm_take_drop points scalars k h,
    msm_take_drop (points.drop k) (scalars.drop k) k (by simp [h])]
  have e : k * 2 - k = k := by omega
  have e2 : k + k = k * 2 := by omega
  simp only [List.drop_take, List.drop_drop, e, e2]
  abel

omit [AddCommGroup P1] in
theorem computeBS2Traced_eq (pk : ProvingKey q P1 P2) (w : List (ZMod q)) (s : ℕ)
    (h : pk.G2.B.length = w.length) :
    computeBS2Traced pk w s =
      some (msm pk.G2.B w + s • pk.G2.Delta + pk.G2.Beta,
        if pk.G2.B.length / 3 > 10 then
          [(pk.G2.B.take (pk.G2.B.length / 3), w.take (pk.G2.B.length / 3)),
            ((pk.G2.B.take (pk.G2.B.length / 3 * 2)).drop (pk.G2.B.length / 3),
              (w.take (pk.G2.B.length / 3 * 2)).drop (pk.G2.B.length / 3)),
            (pk.G2.B.drop (pk.G2.B.length / 3 * 2), w.drop (pk.G2.B.length / 3 * 2))]
        else [(pk.G2.B, w)]) := by
  unfold computeBS2Traced
  by_cases hk : pk.G2.B.length / 3 > 10
  · have h1 : pk.G2.B.length / 3 ≤ pk.G2.B.length := Nat.div_le_self _ _
    have h2 : pk.G2.B.length / 3 * 2 ≤ pk.G2.B.length := by omega
    have h3 : pk.G2.B.length / 3 ≤ pk.G2.B.length / 3 * 2 := by omega
    have h1' : pk.G2.B.length / 3 ≤ w.length := h ▸ h1
    have h2' : pk.G2.B.length / 3 * 2 ≤ w.length := h ▸ h2
    simp only [hk, if_true, sliceTo, sliceFrom, slice, h1, h2, h3, h1', h2', and_self,
      Option.pure_def, Option.bind_eq_bind, Option.some_bind]
    rw [MultiExp_eq_some _ _ (by simp [h]), MultiExp_eq_some _ _ (by simp [h]),
      MultiExp_eq_some _ _ (by simp [h])]
    simp only [Option.some_bind, ScalarMultiplication]
    rw [msm_split_three pk.G2.B w (pk.G2.B.length / 3) h]
  · simp only [hk, if_false, Option.pure_def, Option.bind_eq_bind]
    rw [MultiExp_eq_some _ _ h]
    simp [ScalarMultiplication]

omit [AddCommGroup P1] in
theorem computeBS2_eq (pk : ProvingKey q P1 P2) (w : List (ZMod q)) (s : ℕ)
    (h : pk.G2.B.length = w.length) :
    computeBS2 pk w s = some (msm pk.G2.B w + s • pk.G2.Delta + pk.G2.Beta) := by
  rw [computeBS2, computeBS2Traced_eq pk w s h, Option.map_some']

omit [AddCommGroup P2] in
theorem computeKRS_eq (r1cs : R1CS q E) (pk : ProvingKey q P1 P2) (w h : List (ZMod q))
    (_r _s _kr : ZMod q) (ar bs1 : P1) (r s : ℕ) (order : List Signal)
    (hZ : pk.G1.Z.length = h.length) (hp : r1cs.NbPublicVariables ≤ w.length)
    (hK : pk.G1.K.length = w.length - r1cs.NbPublicVariables)
    (ho : order.Perm [Signal.krs2Done, Signal.arDone, Signal.bs1Done]) :
    computeKRS r1cs pk w h (BatchScalarMultiplicationG1 pk.G1.Delta [_r, _s, _kr]) ar bs1 r s
        order =
      some (msm pk.G1.K (w.drop r1cs.NbPublicVariables) + _kr.val • pk.G1.Delta +
        msm pk.G1.Z h + s • ar + r • bs1) := by
  unfold computeKRS
  rw [MultiExp_eq_some _ _ hZ]
  simp only [sliceFrom, hp, if_true, Option.pure_def, Option.bind_eq_bind, Option.some_bind]
  rw [MultiExp_eq_some _ _ (by simp [hK])]
  simp only [BatchScalarMultiplicationG1, List.map_cons, List.map_nil, Option.some_bind,
    ScalarMultiplication]
  simp only [List.getElem?_cons_succ, List.getElem?_cons_zero, Option.some_bind]
  rw [krsLoop_perm _ _ _ _ _ _ _ ho]
  simp

theorem MultiExp_some_length (points : List G) (scalars : List (ZMod q)) (x : G)
    (h : MultiExp points scalars = some x) : points.length = scalars.length := by
  by_contra hne
  rw [MultiExp_eq_none _ _ hne] at h
  simp at h

omit [AddCommGroup P1] in
theorem computeBS2Traced_some_length (pk : ProvingKey q P1 P2) (w : List (ZMod q)) (s : ℕ)
    (x : P2 × List (List P2 × List (ZMod q)))
    (h : computeBS2Traced pk w s = some x) : pk.G2.B.length = w.length := by
  unfold computeBS2Traced at h
  by_cases hk : pk.G2.B.length / 3 > 10
  · simp only [hk, if_true, Option.pure_def, Option.bind_eq_bind, Option.bind_eq_some] at h
    obtain ⟨_, _, _, _, _, _, _, _, _, _, _, _, pB, hpB, pw, hpw, Bs, hm, _⟩ := h
    have hl := MultiExp_some_length _ _ _ hm
    simp only [sliceFrom] at hpB hpw
    split at hpB
    · split at hpw
      · simp only [Option.some.injEq] at hpB hpw
        subst hpB hpw
        simp only [List.length_drop] at hl
        omega
      · simp at hpw
    · simp at hpB
  · simp only [hk, if_false, Option.pure_def, Option.bind_eq_bind, Option.bind_eq_some] at h
    obtain ⟨Bs, hm, _⟩ := h
    exact MultiExp_some_length _ _ _ hm

omit [AddCommGroup P1] in
theorem computeBS2_some_length (pk : ProvingKey q P1 P2) (w : List (ZMod q)) (s : ℕ) (x : P2)
    (h : computeBS2 pk w s = some x) : pk.G2.B.length = w.length := by
  rw [computeBS2, Option.map_eq_some'] at h
  obtain ⟨y, hy, _⟩ := h
  exact computeBS2Traced_some_length pk w s y hy

theorem assemble_some_lengths (r1cs : R1CS q E) (pk : ProvingKey q P1 P2) (w h : List (ZMod q))
    (_r _s : ZMod q) (order : List Signal) (proof : Proof P1 P2)
    (hp : assemble r1cs pk w h _r _s order = some proof) :
    pk.G1.A.length = w.length ∧ pk.G1.B.length = w.length ∧ pk.G2.B.length = w.length ∧
      pk.G1.Z.length = h.length ∧ r1cs.NbPublicVariables ≤ w.length ∧
      pk.G1.K.length = w.length - r1cs.NbPublicVariables := by
  unfold assemble at hp
  simp only [Option.pure_def, Option.bind_eq_bind, Option.bind_eq_some] at hp
  obtain ⟨ar, har, bs1, hbs1, krs, hkrs, Bs, hBs, _⟩ := hp
  unfold computeAR1 at har
  unfold computeBS1 at hbs1
  unfold computeKRS at hkrs
  simp only [Option.pure_def, Option.bind_eq_bind, Option.bind_eq_some] at har hbs1 hkrs
  obtain ⟨_, hA, _⟩ := har
  obtain ⟨_, hB, _⟩ := hbs1
  obtain ⟨_, hZ, ws, hws, _, hK, _⟩ := hkrs
  have hK' := MultiExp_some_length _ _ _ hK
  simp only [sliceFrom] at hws
  split at hws
  · rename_i hle
    simp only [Option.some.injEq] at hws
    subst hws
    simp only [List.length_drop] at hK'
    exact ⟨MultiExp_some_length _ _ _ hA, MultiExp_some_length _ _ _ hB,
      computeBS2_some_length _ _ _ _ hBs, MultiExp_some_length _ _ _ hZ, hle, hK'⟩
  · simp at hws

theorem assemble_eq (r1cs : R1CS q E) (pk : ProvingKey q P1 P2) (w h : List (ZMod q))
    (_r _s : ZMod q) (order : List Signal)
    (hA : pk.G1.A.length = w.length) (hB : pk.G1.B.length = w.length)
    (hB2 : pk.G2.B.length = w.length) (hZ : pk.G1.Z.length = h.length)
    (hp : r1cs.NbPublicVariables ≤ w.length)
    (hK : pk.G1.K.length = w.length - r1cs.NbPublicVariables)
    (ho : order.Perm [Signal.krs2Done, Signal.arDone, Signal.bs1Done]) :
    assemble r1cs pk w h _r _s order = some
      { Ar := msm pk.G1.A w + pk.G1.Alpha + _r.val • pk.G1.Delta
        Krs := msm pk.G1.K (w.drop r1cs.NbPublicVariables) + (-(_r * _s)).val • pk.G1.Delta +
          msm pk.G1.Z h +
          _s.val • (msm pk.G1.A w + pk.G1.Alpha + _r.val • pk.G1.Delta) +
          _r.val • (msm pk.G1.B w + pk.G1.Beta + _s.val • pk.G1.Delta)
        Bs := msm pk.G2.B w + _s.val • pk.G2.Delta + pk.G2.Beta } := by
  unfold assemble
  simp only [Option.pure_def, Option.bind_eq_bind]
  rw [computeAR1_eq pk w _ _ _ hA, computeBS1_eq pk w _ _ _ hB]
  simp only [Option.some_bind]
  rw [computeKRS_eq r1cs pk w h _ _ _ _ _ _ _ order hZ hp hK ho, computeBS2_eq pk w _ hB2]
  simp only [Option.some_bind]

/-- What a returned proof tells about the run of `Prove` that returned it. -/
theorem Prove_ret_inv (r1cs : R1CS q E) (pk : ProvingKey q P1 P2) (witness : List (ZMod q))
    (force : Bool) (rnd : RandomSource q E) (order : List Signal) (proof : Proof P1 P2)
    (hret : Prove r1cs pk witness force rnd order = Outcome.ret proof) :
    ∃ (h : List (ZMod q)) (r s : ZMod q),
      computeH (r1cs.solvedA witness) (r1cs.solvedB witness) (r1cs.solvedC witness) pk.Domain =
        some h ∧
      rnd.first = Except.ok r ∧ rnd.second = Except.ok s ∧
      assemble r1cs pk (r1cs.solvedWires witness) h r s order = some proof := by
  dsimp only [Prove] at hret
  split_ifs at hret
  split at hret
  · simp at hret
  · split at hret
    · simp at hret
    · rename_i h hh
      split at hret
      · simp at hret
      · rename_i r hr
        split at hret
        · simp at hret
        · rename_i s hs
          split at hret
          · simp at hret
          · rename_i p hp
            simp only [Outcome.ret.injEq] at hret
            subst hret
            exact ⟨h, r, s, hh, hr, hs, hp⟩

/-- The run of `Prove` on inputs that pass every check. -/
theorem Prove_eq_ret (r1cs : R1CS q E) (pk : ProvingKey q P1 P2) (witness : List (ZMod q))
    (force : Bool) (rnd : RandomSource q E) (order : List Signal) (r s : ZMod q)
    (hsize : (witness.length : Int) =
      (r1cs.NbPublicVariables : Int) - 1 + (r1cs.NbSecretVariables : Int))
    (hpk : pk.WellFormed r1cs)
    (hsolve : (r1cs.Solve witness).err = none ∨ force = true)
    (hr : rnd.first = Except.ok r) (hs : rnd.second = Except.ok s)
    (ho : order.Perm [Signal.krs2Done, Signal.arDone, Signal.bs1Done]) :
    ∃ (h : List (ZMod q)) (proof : Proof P1 P2),
      computeH (r1cs.solvedA witness) (r1cs.solvedB witness) (r1cs.solvedC witness) pk.Domain =
        some h ∧
      assemble r1cs pk (r1cs.solvedWires witness) h r s order = some proof ∧
      Prove r1cs pk witness force rnd order = Outcome.ret proof := by
  obtain ⟨hA, hB, hB2, hK, hZ, hn⟩ := hpk
  have hlen : (r1cs.solvedA witness).length = r1cs.NbConstraints := by simp [R1CS.solvedA]
  obtain ⟨h, hH⟩ : ∃ h, computeH (r1cs.solvedA witness) (r1cs.solvedB witness)
      (r1cs.solvedC witness) pk.Domain = some h :=
    ⟨_, computeH_eq_some (r1cs.solvedA witness) (r1cs.solvedB witness)
      (r1cs.solvedC witness) pk.Domain (by rw [hlen]; exact hn)
      (by simp [R1CS.solvedA, R1CS.solvedB]) (by simp [R1CS.solvedA, R1CS.solvedC])⟩
  have hw : (r1cs.solvedWires witness).length = r1cs.nbWires := by simp [R1CS.solvedWires]
  have hasm := assemble_eq r1cs pk (r1cs.solvedWires witness) h r s order
    (hA.trans hw.symm) (hB.trans hw.symm) (hB2.trans hw.symm)
    (hZ.trans (computeH_length _ _ _ _ _ hH).symm)
    (by rw [hw]; unfold R1CS.nbWires; omega) (by rw [hK, hw]) ho
  refine ⟨_, _, hH, hasm, ?_⟩
  dsimp only [Prove]
  rw [if_neg (by simpa using hsize), if_neg (by omega)]
  split
  · exfalso
    rcases hsolve with h | h <;> simp_all
  · simp only [R1CS.solvedA, R1CS.solvedB, R1CS.solvedC] at hH
    rw [hH]
    simp only [hr, hs]
    simp only [R1CS.solvedWires, R1CS.nbWires] at hasm
    rw [hasm]
    rfl

/-- The four tasks behind a proof returned by `assemble`. -/
theorem assemble_some_parts (r1cs : R1CS q E) (pk : ProvingKey q P1 P2) (w h : List (ZMod q))
    (_r _s : ZMod q) (order : List Signal) (proof : Proof P1 P2)
    (hp : assemble r1cs pk w h _r _s order = some proof) :
    ∃ bs1 : P1,
      computeAR1 pk w (BatchScalarMultiplicationG1 pk.G1.Delta [_r, _s, -(_r * _s)]) =
        some proof.Ar ∧
      computeBS1 pk w (BatchScalarMultiplicationG1 pk.G1.Delta [_r, _s, -(_r * _s)]) =
        some bs1 ∧
      computeKRS r1cs pk w h (BatchScalarMultiplicationG1 pk.G1.Delta [_r, _s, -(_r * _s)])
        proof.Ar bs1 _r.val _s.val order = some proof.Krs ∧
      computeBS2 pk w _s.val = some proof.Bs := by
  unfold assemble at hp
  simp only [Option.pure_def, Option.bind_eq_bind, Option.bind_eq_some] at hp
  obtain ⟨ar, har, bs1, hbs1, krs, hkrs, Bs, hBs, hproof⟩ := hp
  simp only [Option.some.injEq] at hproof
  subst hproof
  exact ⟨bs1, har, hbs1, hkrs, hBs⟩

/-- Multiples of a non-zero point of prime order `q` by canonical representatives of elements
of `ZMod q` determine the element. -/
theorem val_nsmul_injective [Fact (Nat.Prime q)] (p : G) (hq : q • p = 0) (hp : p ≠ 0)
    (x y : ZMod q) (h : x.val • p = y.val • p) : x = y := by
  have hord : addOrderOf p = q := addOrderOf_eq_prime hq hp
  have hmod : x.val ≡ y.val [MOD q] := by
    have := (nsmul_eq_nsmul_iff_modEq (x := p)).mp h
    rwa [hord] at this
  have hx : x.val < q := ZMod.val_lt x
  have hy : y.val < q := ZMod.val_lt y
  exact ZMod.val_injective q (Nat.ModEq.eq_of_lt_of_lt hmod hx hy)



theorem sum_map_range {M : Type} [AddCommMonoid M] (f : ℕ → M) (n : ℕ) :
    ((List.range n).map f).sum = ∑ i in Finset.range n, f i := by
  induction n with
  | zero => simp
  | succ n ih => simp [List.range_succ, Finset.sum_range_succ, ih]

theorem polyEval_eq_sum (l : List (ZMod q)) (x : ZMod q) :
    polyEval l x = ∑ j in Finset.range l.length, l.getD j 0 * x ^ j := by
  unfold polyEval
  exact sum_map_range _ _

theorem getD_map_range (f : ℕ → ZMod q) (n i : ℕ) (hi : i < n) :
    ((List.range n).map f).getD i 0 = f i := by
  rw [List.getD_eq_getElem _ _ (by simpa using hi)]
  simp

theorem Domain.IsEvaluationDomain.isPrimitiveRoot {d : Domain q} (hd : d.IsEvaluationDomain) :
    IsPrimitiveRoot d.Generator d.Cardinality :=
  IsPrimitiveRoot.mk_of_lt _ hd.1 hd.2.1 fun l hl hlt => hd.2.2 l hlt hl

section Field

variable [Fact (Nat.Prime q)]

theorem Domain.IsEvaluationDomain.card_ne_zero {d : Domain q} (hd : d.IsEvaluationDomain) :
    (d.Cardinality : ZMod q) ≠ 0 := by
  haveI : NeZero d.Cardinality := ⟨hd.1.ne'⟩
  exact (hd.isPrimitiveRoot.neZero').ne

theorem Domain.IsEvaluationDomain.generator_ne_zero {d : Domain q}
    (hd : d.IsEvaluationDomain) : d.Generator ≠ 0 := by
  intro h
  have := hd.2.1
  rw [h, zero_pow hd.1.ne'] at this
  exact zero_ne_one this

/-- Orthogonality of the powers of the generator. -/
theorem Domain.IsEvaluationDomain.sum_pow {d : Domain q} (hd : d.IsEvaluationDomain)
    (i k : ℕ) (hi : i < d.Cardinality) (hk : k < d.Cardinality) :
    ∑ j in Finset.range d.Cardinality, (d.Generator ^ i * (d.Generator⁻¹) ^ k) ^ j =
      if k = i then (d.Cardinality : ZMod q) else 0 := by
  have hω := hd.generator_ne_zero
  split_ifs with h
  · subst h
    have : d.Generator ^ k * (d.Generator⁻¹) ^ k = 1 := by
      rw [← mul_pow, mul_inv_cancel₀ hω, one_pow]
    rw [this]
    simp
  · set x := d.Generator ^ i * (d.Generator⁻¹) ^ k with hx
    have hxn : x ^ d.Cardinality = 1 := by
      rw [hx, mul_pow, ← pow_mul, ← pow_mul, mul_comm i, mul_comm k, pow_mul, pow_mul,
        inv_pow, hd.2.1]
      simp
    have hx1 : x ≠ 1 := by
      intro h1
      apply h
      have : d.Generator ^ i = d.Generator ^ k := by
        have h2 : x * d.Generator ^ k = d.Generator ^ i := by
          rw [hx, mul_assoc, ← mul_pow, inv_mul_cancel₀ hω, one_pow, mul_one]
        rw [← h2, h1, one_mul]
      exact (hd.isPrimitiveRoot.pow_inj hi hk this).symm
    have hgeom := mul_geom_sum x d.Cardinality
    rw [hxn, sub_self] at hgeom
    rcases mul_eq_zero.mp hgeom with h0 | h0
    · exact absurd (sub_eq_zero.mp h0) hx1
    · exact h0

/-- Evaluating after interpolating gives the values back: the forward transform undoes the
inverse transform, on the subgroup and on the coset. -/
theorem Domain.IsEvaluationDomain.polyEval_FFTInverse {d : Domain q}
    (hd : d.IsEvaluationDomain) (v : List (ZMod q)) (dec : Decimation) (coset : ℕ)
    (hv : v.length = d.Cardinality) (hg : d.CosetShift ^ coset ≠ 0)
    (i : ℕ) (hi : i < d.Cardinality) :
    polyEval (d.FFTInverse v dec coset) (d.CosetShift ^ coset * d.Generator ^ i) =
      v.getD i 0 := by
  rw [polyEval_eq_sum, Domain.length_FFTInverse, hv]
  have step : ∀ j ∈ Finset.range d.Cardinality,
      (d.FFTInverse v dec coset).getD j 0 * (d.CosetShift ^ coset * d.Generator ^ i) ^ j =
        ∑ k in Finset.range d.Cardinality, (d.Cardinality : ZMod q)⁻¹ * v.getD k 0 *
          (d.Generator ^ i * (d.Generator⁻¹) ^ k) ^ j := by
    intro j hj
    rw [Finset.mem_range] at hj
    unfold Domain.FFTInverse
    rw [getD_map_range _ _ _ (by rw [hv]; exact hj), polyEval_eq_sum, hv]
    have e : ((d.CosetShift ^ coset)⁻¹) ^ j * (d.CosetShift ^ coset * d.Generator ^ i) ^ j =
        (d.Generator ^ i) ^ j := by
      rw [← mul_pow, ← mul_assoc, inv_mul_cancel₀ hg, one_mul]
    calc ((d.CosetShift ^ coset)⁻¹) ^ j * ((d.Cardinality : ZMod q)⁻¹ *
          ∑ k in Finset.range d.Cardinality, v.getD k 0 * ((d.Generator⁻¹) ^ j) ^ k) *
          (d.CosetShift ^ coset * d.Generator ^ i) ^ j
        = (((d.CosetShift ^ coset)⁻¹) ^ j * (d.CosetShift ^ coset * d.Generator ^ i) ^ j) *
          ((d.Cardinality : ZMod q)⁻¹ *
          ∑ k in Finset.range d.Cardinality, v.getD k 0 * ((d.Generator⁻¹) ^ j) ^ k) := by ring
      _ = ∑ k in Finset.range d.Cardinality, (d.Cardinality : ZMod q)⁻¹ * v.getD k 0 *
          (d.Generator ^ i * (d.Generator⁻¹) ^ k) ^ j := by
        rw [e, Finset.mul_sum, Finset.mul_sum]
        apply Finset.sum_congr rfl
        intro k _
        rw [mul_pow, ← pow_mul, ← pow_mul (d.Generator⁻¹), ← pow_mul (d.Generator⁻¹),
          mul_comm k j]
        ring
  rw [Finset.sum_congr rfl step, Finset.sum_comm]
  simp_rw [← Finset.mul_sum]
  have inner : ∀ k ∈ Finset.range d.Cardinality,
      (d.Cardinality : ZMod q)⁻¹ * v.getD k 0 *
        ∑ j in Finset.range d.Cardinality, (d.Generator ^ i * (d.Generator⁻¹) ^ k) ^ j =
      if k = i then v.getD k 0 else 0 := by
    intro k hk
    rw [Finset.mem_range] at hk
    rw [hd.sum_pow i k hi hk]
    split_ifs with h
    · field_simp [hd.card_ne_zero]
    · simp
  rw [Finset.sum_congr rfl inner, Finset.sum_ite_eq' (Finset.range d.Cardinality) i]
  simp [hi]

theorem getD_append_replicate_zero (a : List (ZMod q)) (m i : ℕ) :
    (a ++ List.replicate m 0).getD i 0 = a.getD i 0 := by
  by_cases hi : i < a.length
  · rw [List.getD_append _ _ _ _ hi]
  · rw [List.getD_append_right _ _ _ _ (not_lt.mp hi), List.getD_eq_default _ _ (not_lt.mp hi)]
    by_cases h2 : i - a.length < m
    · rw [List.getD_eq_getElem _ _ (by simpa using h2)]
      simp
    · rw [List.getD_eq_default _ _ (by simpa using h2)]

/-- The value of a polynomial is `polyEval` of its coefficient vector. -/
theorem eval_eq_polyEval (P : Polynomial (ZMod q)) (l : List (ZMod q))
    (hP : ∀ j, P.coeff j = l.getD j 0) (x : ZMod q) : P.eval x = polyEval l x := by
  rw [polyEval_eq_sum]
  by_cases hl : l.length = 0
  · have : P = 0 := by
      ext j
      rw [hP j, List.getD_eq_default _ _ (by omega)]
      simp
    simp [this, hl]
  · have hdeg : P.natDegree < l.length := by
      by_cases hP0 : P = 0
      · rw [hP0]; simpa using Nat.pos_of_ne_zero hl
      · rw [Polynomial.natDegree_lt_iff_degree_lt hP0, Polynomial.degree_lt_iff_coeff_zero]
        intro m hm
        rw [hP m, List.getD_eq_default _ _ hm]
    rw [Polynomial.eval_eq_sum_range' hdeg]
    exact Finset.sum_congr rfl fun j _ => by rw [hP j]

/-- A polynomial of degree below `Cardinality` with given values on the subgroup has the
inverse transform of the values as coefficient vector. -/
theorem Domain.IsEvaluationDomain.eval_interpolant {d : Domain q}
    (hd : d.IsEvaluationDomain) (u : List (ZMod q)) (dec : Decimation)
    (hu : u.length = d.Cardinality) (A : Polynomial (ZMod q))
    (hdeg : A.degree < (d.Cardinality : WithBot ℕ))
    (hA : ∀ i < d.Cardinality, A.eval (d.Generator ^ i) = u.getD i 0) (x : ZMod q) :
    A.eval x = polyEval (d.FFTInverse u dec 0) x := by
  set P : Polynomial (ZMod q) := ∑ j in Finset.range d.Cardinality,
    Polynomial.C ((d.FFTInverse u dec 0).getD j 0) * Polynomial.X ^ j with hPdef
  have hcoeff : ∀ j, P.coeff j = (d.FFTInverse u dec 0).getD j 0 := by
    intro j
    rw [hPdef, Polynomial.finset_sum_coeff]
    simp only [Polynomial.coeff_C_mul_X_pow]
    rw [Finset.sum_ite_eq (Finset.range d.Cardinality) j]
    split_ifs with hj
    · rfl
    · rw [List.getD_eq_default _ _ (by
        rw [Domain.length_FFTInverse, hu]; simpa using hj)]
  have hPdeg : P.degree < (d.Cardinality : WithBot ℕ) := by
    rw [Polynomial.degree_lt_iff_coeff_zero]
    intro m hm
    rw [hcoeff m, List.getD_eq_default _ _ (by rw [Domain.length_FFTInverse, hu]; exact hm)]
  have hPeval : ∀ y, P.eval y = polyEval (d.FFTInverse u dec 0) y :=
    fun y => eval_eq_polyEval P _ hcoeff y
  have hinj : Set.InjOn (fun i : ℕ => d.Generator ^ i) (Finset.range d.Cardinality : Set ℕ) := by
    intro i hi j hj hij
    simp only [Finset.coe_range, Set.mem_Iio] at hi hj
    exact hd.isPrimitiveRoot.pow_inj hi hj hij
  have hAP : A = P := by
    apply Polynomial.eq_of_degrees_lt_of_eval_index_eq (Finset.range d.Cardinality) hinj
    · simpa using hdeg
    · simpa using hPdeg
    · intro i hi
      rw [Finset.mem_range] at hi
      rw [hA i hi, hPeval]
      have := hd.polyEval_FFTInverse u dec 0 hu (by simp) i hi
      simpa using this.symm
  rw [hAP, hPeval]

/-- What `computeH` returns, seen on the coset: the polynomial with the returned coefficient
vector takes at the coset point `i` the value of the combine step at position `i`. -/
theorem computeH_coset (hq : q ≠ 2) (d : Domain q) (hd : d.IsEvaluationDomain)
    (hg : d.CosetShift ^ d.Cardinality = -1) (a b c : List (ZMod q))
    (hab : a.length = b.length) (hac : a.length = c.length) (hn : a.length ≤ d.Cardinality) :
    ∃ h, computeH a b c d = some h ∧ h.length = d.Cardinality ∧
      ∀ i < d.Cardinality,
        polyEval h (d.CosetShift * d.Generator ^ i) * (-2) =
          polyEval (d.FFTInverse (a ++ List.replicate (d.Cardinality - a.length) 0)
              Decimation.DIF 0) (d.CosetShift * d.Generator ^ i) *
            polyEval (d.FFTInverse (b ++ List.replicate (d.Cardinality - a.length) 0)
              Decimation.DIF 0) (d.CosetShift * d.Generator ^ i) -
            polyEval (d.FFTInverse (c ++ List.replicate (d.Cardinality - a.length) 0)
              Decimation.DIF 0) (d.CosetShift * d.Generator ^ i) := by
  have hH := computeH_eq_some a b c d hn hab.le hac.le
  refine ⟨_, hH, computeH_length _ _ _ _ _ hH, fun i hi => ?_⟩
  have hg0 : d.CosetShift ^ 1 ≠ 0 := by
    rw [pow_one]
    intro h0
    rw [h0, zero_pow hd.1.ne'] at hg
    exact neg_ne_zero.mpr one_ne_zero hg.symm
  have h2 : (-2 : ZMod q) ≠ 0 := by
    rw [neg_ne_zero]
    intro h
    have h' : ((2 : ℕ) : ZMod q) = 0 := by exact_mod_cast h
    rw [ZMod.natCast_zmod_eq_zero_iff_dvd] at h'
    have hq' : Nat.Prime q := Fact.out
    exact hq ((Nat.prime_dvd_prime_iff_eq hq' Nat.prime_two).mp h')
  have hval := hd.polyEval_FFTInverse
    ((List.range d.Cardinality).map fun i =>
      ((d.FFT (d.FFTInverse (a ++ List.replicate (d.Cardinality - a.length) 0)
          Decimation.DIF 0) Decimation.DIT 1).getD i 0 *
        (d.FFT (d.FFTInverse (b ++ List.replicate (d.Cardinality - a.length) 0)
          Decimation.DIF 0) Decimation.DIT 1).getD i 0 -
        (d.FFT (d.FFTInverse (c ++ List.replicate (d.Cardinality - a.length) 0)
          Decimation.DIF 0) Decimation.DIT 1).getD i 0) * minusTwoInv q)
    Decimation.DIF 1 (by simp) hg0 i hi
  rw [pow_one] at hval
  rw [hval, getD_map_range _ _ _ hi]
  have hlen : ∀ x : List (ZMod q), x.length = a.length →
      (d.FFTInverse (x ++ List.replicate (d.Cardinality - a.length) 0)
        Decimation.DIF 0).length = d.Cardinality := by
    intro x hx
    rw [Domain.length_FFTInverse, List.length_append, List.length_replicate, hx]
    omega
  have hF : ∀ x : List (ZMod q), x.length = a.length →
      (d.FFT (d.FFTInverse (x ++ List.replicate (d.Cardinality - a.length) 0)
        Decimation.DIF 0) Decimation.DIT 1).getD i 0 =
      polyEval (d.FFTInverse (x ++ List.replicate (d.Cardinality - a.length) 0)
        Decimation.DIF 0) (d.CosetShift * d.Generator ^ i) := by
    intro x hx
    unfold Domain.FFT
    rw [getD_map_range _ _ _ (by rw [hlen x hx]; exact hi), pow_one]
  rw [hF a rfl, hF b hab.symm, hF c hac.symm]
  unfold minusTwoInv
  rw [mul_assoc, inv_mul_cancel₀ h2, mul_one]

theorem neg_two_ne_zero_of_ne_two (hq : q ≠ 2) : (-2 : ZMod q) ≠ 0 := by
  rw [neg_ne_zero]
  intro h
  have h' : ((2 : ℕ) : ZMod q) = 0 := by exact_mod_cast h
  rw [ZMod.natCast_zmod_eq_zero_iff_dvd] at h'
  have hq' : Nat.Prime q := Fact.out
  exact hq ((Nat.prime_dvd_prime_iff_eq hq' Nat.prime_two).mp h')

/-- The vanishing polynomial `X ^ n - 1` of the subgroup takes the value `-2` on the coset. -/
theorem Domain.IsEvaluationDomain.eval_vanishing_coset {d : Domain q}
    (hd : d.IsEvaluationDomain) (hg : d.CosetShift ^ d.Cardinality = -1) (i : ℕ) :
    (Polynomial.X ^ d.Cardinality - 1 : Polynomial (ZMod q)).eval
      (d.CosetShift * d.Generator ^ i) = -2 := by
  simp only [Polynomial.eval_sub, Polynomial.eval_pow, Polynomial.eval_X, Polynomial.eval_one]
  rw [mul_pow, hg, ← pow_mul, mul_comm i, pow_mul, hd.2.1, one_pow]
  ring

/-- The vanishing polynomial `X ^ n - 1` vanishes on the subgroup. -/
theorem Domain.IsEvaluationDomain.eval_vanishing_subgroup {d : Domain q}
    (hd : d.IsEvaluationDomain) (i : ℕ) :
    (Polynomial.X ^ d.Cardinality - 1 : Polynomial (ZMod q)).eval (d.Generator ^ i) = 0 := by
  simp only [Polynomial.eval_sub, Polynomial.eval_pow, Polynomial.eval_X, Polynomial.eval_one]
  rw [← pow_mul, mul_comm i, pow_mul, hd.2.1, one_pow, sub_self]

/-- The relation between the interpolants of the inputs of `computeH` and the polynomial whose
coefficient vector it returns, at the points of the coset. -/
theorem computeH_eval (hq : q ≠ 2) (d : Domain q) (hd : d.IsEvaluationDomain)
    (hg : d.CosetShift ^ d.Cardinality = -1) (a b c : List (ZMod q))
    (hab : a.length = b.length) (hac : a.length = c.length) (hn : a.length ≤ d.Cardinality) :
    ∃ h, computeH a b c d = some h ∧ h.length = d.Cardinality ∧
      ∀ A B C H : Polynomial (ZMod q),
        A.degree < (d.Cardinality : WithBot ℕ) → B.degree < (d.Cardinality : WithBot ℕ) →
        C.degree < (d.Cardinality : WithBot ℕ) →
        (∀ i < d.Cardinality, A.eval (d.Generator ^ i) = a.getD i 0) →
        (∀ i < d.Cardinality, B.eval (d.Generator ^ i) = b.getD i 0) →
        (∀ i < d.Cardinality, C.eval (d.Generator ^ i) = c.getD i 0) →
        (∀ j, H.coeff j = h.getD j 0) →
        ∀ i < d.Cardinality,
          A.eval (d.CosetShift * d.Generator ^ i) * B.eval (d.CosetShift * d.Generator ^ i) -
              C.eval (d.CosetShift * d.Generator ^ i) =
            H.eval (d.CosetShift * d.Generator ^ i) * (-2) := by
  obtain ⟨h, hh, hlen, hval⟩ := computeH_coset hq d hd hg a b c hab hac hn
  refine ⟨h, hh, hlen, ?_⟩
  intro A B C H hA hB hC hAi hBi hCi hH i hi
  have hpad : ∀ x : List (ZMod q), x.length = a.length →
      (x ++ List.replicate (d.Cardinality - a.length) 0).length = d.Cardinality := by
    intro x hx
    rw [List.length_append, List.length_replicate, hx]
    omega
  rw [hd.eval_interpolant _ Decimation.DIF (hpad a rfl) A hA
      (fun i hi => by rw [hAi i hi, getD_append_replicate_zero]),
    hd.eval_interpolant _ Decimation.DIF (hpad b hab.symm) B hB
      (fun i hi => by rw [hBi i hi, getD_append_replicate_zero]),
    hd.eval_interpolant _ Decimation.DIF (hpad c hac.symm) C hC
      (fun i hi => by rw [hCi i hi, getD_append_replicate_zero]),
    eval_eq_polyEval H h hH]
  exact (hval i hi).symm

/-- A polynomial of degree below `n` whose product with `-2` agrees on the coset with
`A * B - C`, the latter vanishing on the subgroup, is the quotient of `A * B - C` by
`X ^ n - 1`. -/
theorem Domain.IsEvaluationDomain.quotient_unique {d : Domain q} (hd : d.IsEvaluationDomain)
    (hq : q ≠ 2) (hg : d.CosetShift ^ d.Cardinality = -1) (A B C H : Polynomial (ZMod q))
    (hA : A.degree < (d.Cardinality : WithBot ℕ)) (hB : B.degree < (d.Cardinality : WithBot ℕ))
    (hC : C.degree < (d.Cardinality : WithBot ℕ)) (hH : H.degree < (d.Cardinality : WithBot ℕ))
    (hzero : ∀ i < d.Cardinality,
      A.eval (d.Generator ^ i) * B.eval (d.Generator ^ i) - C.eval (d.Generator ^ i) = 0)
    (hcoset : ∀ i < d.Cardinality,
      A.eval (d.CosetShift * d.Generator ^ i) * B.eval (d.CosetShift * d.Generator ^ i) -
          C.eval (d.CosetShift * d.Generator ^ i) =
        H.eval (d.CosetShift * d.Generator ^ i) * (-2)) :
    A * B - C = H * (Polynomial.X ^ d.Cardinality - 1) ∧
      H.degree < ((d.Cardinality - 1 : ℕ) : WithBot ℕ) := by
  have hn0 : 0 < d.Cardinality := hd.1
  have h2 := neg_two_ne_zero_of_ne_two hq
  have hZ : (Polynomial.X ^ d.Cardinality - 1 : Polynomial (ZMod q)) =
      Polynomial.X ^ d.Cardinality - Polynomial.C 1 := by simp
  have hmonic : (Polynomial.X ^ d.Cardinality - 1 : Polynomial (ZMod q)).Monic := by
    rw [hZ]; exact Polynomial.monic_X_pow_sub_C 1 hn0.ne'
  have hZdeg : (Polynomial.X ^ d.Cardinality - 1 : Polynomial (ZMod q)).degree =
      (d.Cardinality : WithBot ℕ) := by
    rw [hZ]; exact Polynomial.degree_X_pow_sub_C hn0 1
  have hZnat : (Polynomial.X ^ d.Cardinality - 1 : Polynomial (ZMod q)).natDegree =
      d.Cardinality := Polynomial.natDegree_eq_of_degree_eq_some hZdeg
  have hsplit := Polynomial.modByMonic_add_div (A * B - C) hmonic
  have hinj : Set.InjOn (fun i : ℕ => d.Generator ^ i) (Finset.range d.Cardinality : Set ℕ) := by
    intro i hi j hj hij
    simp only [Finset.coe_range, Set.mem_Iio] at hi hj
    exact hd.isPrimitiveRoot.pow_inj hi hj hij
  have hg0 : d.CosetShift ≠ 0 := by
    intro h0
    rw [h0, zero_pow hn0.ne'] at hg
    exact neg_ne_zero.mpr one_ne_zero hg.symm
  have hinj' : Set.InjOn (fun i : ℕ => d.CosetShift * d.Generator ^ i)
      (Finset.range d.Cardinality : Set ℕ) := by
    intro i hi j hj hij
    exact hinj hi hj (mul_left_cancel₀ hg0 hij)
  -- the remainder vanishes
  have hR : (A * B - C) %ₘ (Polynomial.X ^ d.Cardinality - 1) = 0 := by
    apply Polynomial.eq_zero_of_degree_lt_of_eval_index_eq_zero (Finset.range d.Cardinality) hinj
    · rw [Finset.card_range, ← hZdeg]
      exact Polynomial.degree_modByMonic_lt _ hmonic
    · intro i hi
      rw [Finset.mem_range] at hi
      have e := congrArg (Polynomial.eval (d.Generator ^ i)) hsplit
      simp only [Polynomial.eval_add, Polynomial.eval_mul, hd.eval_vanishing_subgroup,
        zero_mul, add_zero] at e
      rw [e]
      simpa using hzero i hi
  rw [hR, zero_add] at hsplit
  set Q := (A * B - C) /ₘ (Polynomial.X ^ d.Cardinality - 1) with hQ
  -- the degree of the quotient
  have natdeg : ∀ P : Polynomial (ZMod q), P.degree < (d.Cardinality : WithBot ℕ) →
      P.natDegree ≤ d.Cardinality - 1 := by
    intro P hP
    rw [Polynomial.natDegree_le_iff_coeff_eq_zero]
    intro N hN
    exact (Polynomial.degree_lt_iff_coeff_zero P d.Cardinality).mp hP N (by omega)
  have hQdeg : Q.degree < ((d.Cardinality - 1 : ℕ) : WithBot ℕ) := by
    by_cases hQ0 : Q = 0
    · rw [hQ0, Polynomial.degree_zero]
      exact WithBot.bot_lt_coe _
    · have hZ0 : (Polynomial.X ^ d.Cardinality - 1 : Polynomial (ZMod q)) ≠ 0 :=
        hmonic.ne_zero
      have hnat := Polynomial.natDegree_mul hZ0 hQ0
      rw [hsplit, hZnat] at hnat
      have hle : (A * B - C).natDegree ≤ 2 * (d.Cardinality - 1) := by
        refine (Polynomial.natDegree_sub_le _ _).trans (max_le ?_ ?_)
        · refine Polynomial.natDegree_mul_le.trans ?_
          have := natdeg A hA
          have := natdeg B hB
          omega
        · have := natdeg C hC
          omega
      rw [Polynomial.degree_eq_natDegree hQ0]
      exact_mod_cast (by omega : Q.natDegree < d.Cardinality - 1)
  have hQn : Q.degree < (d.Cardinality : WithBot ℕ) :=
    lt_of_lt_of_le hQdeg (by exact_mod_cast Nat.sub_le _ _)
  have hHQ : H = Q := by
    apply Polynomial.eq_of_degrees_lt_of_eval_index_eq (Finset.range d.Cardinality) hinj'
    · simpa using hH
    · simpa using hQn
    · intro i hi
      rw [Finset.mem_range] at hi
      have e := congrArg (Polynomial.eval (d.CosetShift * d.Generator ^ i)) hsplit
      simp only [Polynomial.eval_mul, hd.eval_vanishing_coset hg] at e
      have e2 := hcoset i hi
      simp only [Polynomial.eval_sub, Polynomial.eval_mul] at e
      rw [← e, mul_comm] at e2
      exact (mul_right_cancel₀ h2 e2).symm
  rw [hHQ]
  exact ⟨by rw [← hsplit, mul_comm], hQdeg⟩

theorem exists_isCoefficientVector (h : List (ZMod q)) :
    ∃ H : Polynomial (ZMod q), IsCoefficientVector H h := by
  refine ⟨∑ j in Finset.range h.length, Polynomial.C (h.getD j 0) * Polynomial.X ^ j, ?_⟩
  intro j
  rw [Polynomial.finset_sum_coeff]
  simp only [Polynomial.coeff_C_mul_X_pow]
  rw [Finset.sum_ite_eq (Finset.range h.length) j]
  split_ifs with hj
  · rfl
  · rw [List.getD_eq_default _ _ (by simpa using hj)]

theorem IsCoefficientVector.degree_lt {H : Polynomial (ZMod q)} {h : List (ZMod q)}
    (hH : IsCoefficientVector H h) : H.degree < (h.length : WithBot ℕ) := by
  rw [Polynomial.degree_lt_iff_coeff_zero]
  intro m hm
  rw [hH m, List.getD_eq_default _ _ hm]

theorem Domain.IsEvaluationDomain.exists_interpolates {d : Domain q}
    (hd : d.IsEvaluationDomain) (a : List (ZMod q)) :
    ∃ A : Polynomial (ZMod q), d.Interpolates A a := by
  have hinj : Set.InjOn (fun i : ℕ => d.Generator ^ i) (Finset.range d.Cardinality : Set ℕ) := by
    intro i hi j hj hij
    simp only [Finset.coe_range, Set.mem_Iio] at hi hj
    exact hd.isPrimitiveRoot.pow_inj hi hj hij
  refine ⟨Lagrange.interpolate (Finset.range d.Cardinality) (fun i : ℕ => d.Generator ^ i)
    (fun i => a.getD i 0), ?_, ?_⟩
  · simpa using Lagrange.degree_interpolate_lt (fun i => a.getD i 0) hinj
  · intro i hi
    exact Lagrange.eval_interpolate_at_node (fun i => a.getD i 0) hinj (Finset.mem_range.mpr hi)

end Field

/-- Points annihilated by `n`, as a subgroup. -/
theorem nsmul_msm_eq_zero (n : ℕ) (points : List G) (scalars : List (ZMod q))
    (h : ∀ p ∈ points, n • p = 0) : n • msm points scalars = 0 := by
  unfold msm
  rw [Finset.smul_sum]
  apply Finset.sum_eq_zero
  intro i hi
  rw [Finset.mem_range] at hi
  rw [smul_comm, List.getD_eq_getElem _ _ hi, h _ (List.getElem_mem hi), smul_zero]

theorem nsmul_add_eq_zero (n : ℕ) (x y : G) (hx : n • x = 0) (hy : n • y = 0) :
    n • (x + y) = 0 := by
  rw [smul_add, hx, hy, add_zero]

theorem nsmul_nsmul_eq_zero (n m : ℕ) (x : G) (hx : n • x = 0) : n • (m • x) = 0 := by
  rw [smul_comm, hx, smul_zero]

theorem krsLoop_nsmul_eq_zero (n : ℕ) (krs2 ar bs1 : G) (r s : ℕ) (h2 : n • krs2 = 0)
    (ha : n • ar = 0) (hb : n • bs1 = 0) :
    ∀ (k : ℕ) (pending : List Signal) (krs : G) (iters : ℕ) (res : G × ℕ × List Signal),
      n • krs = 0 → krsLoop krs2 ar bs1 r s k pending krs iters = some res →
      n • res.1 = 0 := by
  intro k
  induction k with
  | zero =>
    intro pending krs iters res hk hres
    simp only [krsLoop, Option.some.injEq] at hres
    rw [← hres]; exact hk
  | succ k ih =>
    intro pending krs iters res hk hres
    cases pending with
    | nil => simp [krsLoop] at hres
    | cons sig rest =>
      simp only [krsLoop] at hres
      refine ih rest _ _ res (nsmul_add_eq_zero n _ _ hk ?_) hres
      cases sig
      · exact h2
      · exact nsmul_nsmul_eq_zero n s ar ha
      · exact nsmul_nsmul_eq_zero n r bs1 hb

theorem sum_zipWith_nsmul_eq_zero (n : ℕ) (points : List G) (scalars : List (ZMod q))
    (h : ∀ p ∈ points, n • p = 0) (x : G) (hx : MultiExp points scalars = some x) :
    n • x = 0 := by
  have hl := MultiExp_some_length _ _ _ hx
  rw [MultiExp_eq_some _ _ hl] at hx
  rw [← Option.some.inj hx]
  exact nsmul_msm_eq_zero n points scalars h

omit [AddCommGroup P2] in
theorem computeKRS_nsmul_eq_zero (n : ℕ) (r1cs : R1CS q E) (pk : ProvingKey q P1 P2)
    (w h : List (ZMod q)) (_r _s _kr : ZMod q) (ar bs1 krs : P1) (r s : ℕ)
    (order : List Signal) (hD : n • pk.G1.Delta = 0) (hZ : ∀ p ∈ pk.G1.Z, n • p = 0)
    (hK : ∀ p ∈ pk.G1.K, n • p = 0) (ha : n • ar = 0) (hb : n • bs1 = 0)
    (hk : computeKRS r1cs pk w h (BatchScalarMultiplicationG1 pk.G1.Delta [_r, _s, _kr])
      ar bs1 r s order = some krs) :
    n • krs = 0 := by
  unfold computeKRS at hk
  simp only [Option.pure_def, Option.bind_eq_bind, Option.bind_eq_some] at hk
  obtain ⟨krs2, hkrs2, ws, _, krs0, hkrs0, d2, hd2, res, hres, hfin⟩ := hk
  simp only [BatchScalarMultiplicationG1, List.map_cons, List.map_nil,
    List.getElem?_cons_succ, List.getElem?_cons_zero, Option.some.injEq] at hd2
  obtain ⟨k', _, _⟩ := res
  simp only [Option.some.injEq] at hfin
  subst hfin
  have h0 : n • (krs0 + d2) = 0 := by
    refine nsmul_add_eq_zero n _ _ (sum_zipWith_nsmul_eq_zero n _ _ hK _ hkrs0) ?_
    rw [← hd2]
    exact nsmul_nsmul_eq_zero n _ _ hD
  exact krsLoop_nsmul_eq_zero n krs2 ar bs1 r s
    (sum_zipWith_nsmul_eq_zero n _ _ hZ _ hkrs2) ha hb 3 order _ 0 _ h0 hres

end Lemmas

/-! ## The claims -/

section Claims

variable {q : ℕ} {E P1 P2 : Type} [AddCommGroup P1] [AddCommGroup P2]

/-- Claim C1. With at least one public variable, a witness whose length differs from
`NbPublicVariables - 1 + NbSecretVariables` makes `Prove` return the invalid-witness-size error
(and no proof), and the result is the same whatever the solver is: the solver is not called.
A witness of exactly that length never gets this error. -/
theorem Prove_witness_size (r1cs : R1CS q E) (pk : ProvingKey q P1 P2) (witness : List (ZMod q))
    (force : Bool) (rnd : RandomSource q E) (order : List Signal)
    (hp : 1 ≤ r1cs.NbPublicVariables) :
    (witness.length ≠ r1cs.NbPublicVariables - 1 + r1cs.NbSecretVariables →
      Prove r1cs pk witness force rnd order =
          Outcome.fail (ProveError.invalidWitnessSize (witness.length : Int)
            ((r1cs.NbPublicVariables - 1 + r1cs.NbSecretVariables : ℕ) : Int)
            r1cs.NbPublicVariables r1cs.NbSecretVariables) ∧
        ∀ solve : List (ZMod q) → Solved q E,
          Prove { r1cs with Solve := solve } pk witness force rnd order =
            Prove r1cs pk witness force rnd order) ∧
    (witness.length = r1cs.NbPublicVariables - 1 + r1cs.NbSecretVariables →
      ∀ (got expected : Int) (pub sec : ℕ),
        Prove r1cs pk witness force rnd order ≠
          Outcome.fail (ProveError.invalidWitnessSize got expected pub sec)) := by
  have hexp : (r1cs.NbPublicVariables : Int) - 1 + (r1cs.NbSecretVariables : Int) =
      ((r1cs.NbPublicVariables - 1 + r1cs.NbSecretVariables : ℕ) : Int) := by omega
  refine ⟨fun hne => ?_, fun heq => ?_⟩
  · have hne' : (witness.length : Int) ≠
        (r1cs.NbPublicVariables : Int) - 1 + (r1cs.NbSecretVariables : Int) := by omega
    refine ⟨?_, fun solve => ?_⟩
    · dsimp only [Prove]
      rw [if_pos hne', hexp]
    · dsimp only [Prove]
      rw [if_pos hne', if_pos hne']
  · intro got expected pub sec
    have heq' : (witness.length : Int) =
        (r1cs.NbPublicVariables : Int) - 1 + (r1cs.NbSecretVariables : Int) := by omega
    unfold Prove
    simp only [heq', ne_eq, not_true_eq_false, if_false]
    split_ifs
    · simp
    · split
      · simp
      · split
        · simp
        · split
          · simp
          · split
            · simp
            · split <;> simp

/-- Witness of claim C1: a witness of length three for a system expecting two is refused with
the size error, also when the solver is replaced; a witness of length two is not. -/
theorem Prove_witness_size_witness :
    Prove sampleR1CS samplePK [5, 4, 1] false sampleRandom sampleOrder =
        Outcome.fail (ProveError.invalidWitnessSize 3 2 2 1) ∧
      Prove { sampleR1CS with Solve := fun _ => sampleSolve [] } samplePK [5, 4, 1] false
          sampleRandom sampleOrder =
        Prove sampleR1CS samplePK [5, 4, 1] false sampleRandom sampleOrder ∧
      Prove sampleR1CS samplePK [5, 3] false sampleRandom sampleOrder ≠
        Outcome.fail (ProveError.invalidWitnessSize 2 2 2 1) :=
  ⟨((Prove_witness_size sampleR1CS samplePK [5, 4, 1] false sampleRandom sampleOrder
      (by decide)).1 (by decide)).1,
    ((Prove_witness_size sampleR1CS samplePK [5, 4, 1] false sampleRandom sampleOrder
      (by decide)).1 (by decide)).2 _,
    (Prove_witness_size sampleR1CS samplePK [5, 3] false sampleRandom sampleOrder
      (by decide)).2 (by decide) 2 2 2 1⟩

/-- Claim C2. On a correctly sized witness and a well-formed proving key, when the solver
fails with error `e`: with `force = false` the call returns `e` and no proof; with
`force = true`, both blinding scalars being sampled, the call returns a proof and no error. -/
theorem Prove_force_semantics (r1cs : R1CS q E) (pk : ProvingKey q P1 P2)
    (witness : List (ZMod q)) (rnd : RandomSource q E) (order : List Signal) (e : E)
    (r s : ZMod q)
    (hsize : (witness.length : Int) =
      (r1cs.NbPublicVariables : Int) - 1 + (r1cs.NbSecretVariables : Int))
    (hpk : pk.WellFormed r1cs)
    (hfail : (r1cs.Solve witness).err = some e)
    (hr : rnd.first = Except.ok r) (hs : rnd.second = Except.ok s)
    (ho : order.Perm [Signal.krs2Done, Signal.arDone, Signal.bs1Done]) :
    Prove r1cs pk witness false rnd order = Outcome.fail (ProveError.external e) ∧
      ∃ proof : Proof P1 P2, Prove r1cs pk witness true rnd order = Outcome.ret proof := by
  constructor
  · dsimp only [Prove]
    rw [if_neg (by simpa using hsize), if_neg (by have := hpk.2.2.2.2.2; omega)]
    simp only [hfail]
  · obtain ⟨_, proof, _, _, hret⟩ :=
      Prove_eq_ret r1cs pk witness true rnd order r s hsize hpk (Or.inr rfl) hr hs ho
    exact ⟨proof, hret⟩

/-- Witness of claim C2: the sample solver rejects the witness `[5, 4]`. -/
theorem Prove_force_semantics_witness :
    Prove sampleR1CS samplePK [5, 4] false sampleRandom sampleOrder =
        Outcome.fail (ProveError.external 1) ∧
      ∃ proof : Proof (ZMod 34) (ZMod 34),
        Prove sampleR1CS samplePK [5, 4] true sampleRandom sampleOrder = Outcome.ret proof :=
  Prove_force_semantics sampleR1CS samplePK [5, 4] sampleRandom sampleOrder 1 3 5
    (by decide) (by decide) (by decide) rfl rfl (by decide)

/-- Claim C3. On an evaluation domain of cardinality `n` whose coset shift `g` has
`g ^ n = -1`, for vectors `a`, `b`, `c` of one length at most `n`, `computeH` returns a vector
`h`; with `A`, `B`, `C` the polynomials of degree below `n` that interpolate the zero-padded
`a`, `b`, `c` on the subgroup and `H` the polynomial with coefficient vector `h` (all of which
exist), `A(ζ) * B(ζ) - C(ζ) = H(ζ) * Z(ζ)` at every point `ζ = g * ω ^ i` of the coset, where
`Z = X ^ n - 1`. -/
theorem computeH_coset_identity [Fact (Nat.Prime q)] (hq : q ≠ 2) (d : Domain q) (hd : d.IsEvaluationDomain)
    (hg : d.CosetShift ^ d.Cardinality = -1) (a b c : List (ZMod q))
    (hab : a.length = b.length) (hac : a.length = c.length) (hn : a.length ≤ d.Cardinality) :
    ∃ h, computeH a b c d = some h ∧
      (∃ A B C H : Polynomial (ZMod q),
        d.Interpolates A a ∧ d.Interpolates B b ∧ d.Interpolates C c ∧
          IsCoefficientVector H h) ∧
      ∀ A B C H : Polynomial (ZMod q),
        d.Interpolates A a → d.Interpolates B b → d.Interpolates C c →
        IsCoefficientVector H h →
        ∀ i < d.Cardinality,
          A.eval (d.CosetShift * d.Generator ^ i) * B.eval (d.CosetShift * d.Generator ^ i) -
              C.eval (d.CosetShift * d.Generator ^ i) =
            H.eval (d.CosetShift * d.Generator ^ i) *
              (Polynomial.X ^ d.Cardinality - 1 : Polynomial (ZMod q)).eval
                (d.CosetShift * d.Generator ^ i) := by
  obtain ⟨h, hh, _, hval⟩ := computeH_eval hq d hd hg a b c hab hac hn
  obtain ⟨A, hA⟩ := hd.exists_interpolates a
  obtain ⟨B, hB⟩ := hd.exists_interpolates b
  obtain ⟨C, hC⟩ := hd.exists_interpolates c
  obtain ⟨H, hH⟩ := exists_isCoefficientVector h
  refine ⟨h, hh, ⟨A, B, C, H, hA, hB, hC, hH⟩, ?_⟩
  intro A B C H hA hB hC hH i hi
  rw [hd.eval_vanishing_coset hg]
  exact hval A B C H hA.1 hB.1 hC.1 hA.2 hB.2 hC.2 hH i hi

/-- Witness of claim C3: the sample domain of cardinality four over `ZMod 17`, with vectors of
length three that do not satisfy the constraints. -/
theorem computeH_coset_identity_witness :
    ∃ h, computeH [1, 2, 3] [4, 5, 6] [4, 10, 2] sampleDomain = some h ∧
      (∃ A B C H : Polynomial (ZMod 17),
        sampleDomain.Interpolates A [1, 2, 3] ∧ sampleDomain.Interpolates B [4, 5, 6] ∧
          sampleDomain.Interpolates C [4, 10, 2] ∧ IsCoefficientVector H h) ∧
      ∀ A B C H : Polynomial (ZMod 17),
        sampleDomain.Interpolates A [1, 2, 3] → sampleDomain.Interpolates B [4, 5, 6] →
        sampleDomain.Interpolates C [4, 10, 2] → IsCoefficientVector H h →
        ∀ i < sampleDomain.Cardinality,
          A.eval (sampleDomain.CosetShift * sampleDomain.Generator ^ i) *
                B.eval (sampleDomain.CosetShift * sampleDomain.Generator ^ i) -
              C.eval (sampleDomain.CosetShift * sampleDomain.Generator ^ i) =
            H.eval (sampleDomain.CosetShift * sampleDomain.Generator ^ i) *
              (Polynomial.X ^ sampleDomain.Cardinality - 1 : Polynomial (ZMod 17)).eval
                (sampleDomain.CosetShift * sampleDomain.Generator ^ i) :=
  computeH_coset_identity (by decide) sampleDomain (by decide) (by decide)
    [1, 2, 3] [4, 5, 6] [4, 10, 2] rfl rfl (by decide)

/-- Claim C4. On an evaluation domain of cardinality `n` (with coset shift `g`, `g ^ n = -1`),
for vectors `a`, `b`, `c` of one length at most `n` with `a[i] * b[i] = c[i]` for every `i`,
`computeH` returns the coefficient vector of the quotient: with `A`, `B`, `C` the interpolants
of the zero-padded vectors and `H` the polynomial with the returned coefficient vector (all of
which exist), `A * B - C = H * Z` as polynomials, where `Z = X ^ n - 1`, and `H` has degree at
most `n - 2`. -/
theorem computeH_quotient [Fact (Nat.Prime q)] (hq : q ≠ 2) (d : Domain q) (hd : d.IsEvaluationDomain)
    (hg : d.CosetShift ^ d.Cardinality = -1) (a b c : List (ZMod q))
    (hab : a.length = b.length) (hac : a.length = c.length) (hn : a.length ≤ d.Cardinality)
    (hsat : ∀ i < a.length, a.getD i 0 * b.getD i 0 = c.getD i 0) :
    ∃ h, computeH a b c d = some h ∧
      (∃ A B C H : Polynomial (ZMod q),
        d.Interpolates A a ∧ d.Interpolates B b ∧ d.Interpolates C c ∧
          IsCoefficientVector H h) ∧
      ∀ A B C H : Polynomial (ZMod q),
        d.Interpolates A a → d.Interpolates B b → d.Interpolates C c →
        IsCoefficientVector H h →
        A * B - C = H * (Polynomial.X ^ d.Cardinality - 1) ∧
          H.degree < ((d.Cardinality - 1 : ℕ) : WithBot ℕ) := by
  obtain ⟨h, hh, hlen, hval⟩ := computeH_eval hq d hd hg a b c hab hac hn
  obtain ⟨A, hA⟩ := hd.exists_interpolates a
  obtain ⟨B, hB⟩ := hd.exists_interpolates b
  obtain ⟨C, hC⟩ := hd.exists_interpolates c
  obtain ⟨H, hH⟩ := exists_isCoefficientVector h
  refine ⟨h, hh, ⟨A, B, C, H, hA, hB, hC, hH⟩, ?_⟩
  intro A B C H hA hB hC hH
  refine hd.quotient_unique hq hg A B C H hA.1 hB.1 hC.1 (hlen ▸ hH.degree_lt) ?_
    (hval A B C H hA.1 hB.1 hC.1 hA.2 hB.2 hC.2 hH)
  intro i hi
  rw [hA.2 i hi, hB.2 i hi, hC.2 i hi]
  by_cases hi' : i < a.length
  · rw [hsat i hi', sub_self]
  · rw [List.getD_eq_default _ _ (not_lt.mp hi'), List.getD_eq_default _ _ (hab ▸ not_lt.mp hi'),
      List.getD_eq_default _ _ (hac ▸ not_lt.mp hi')]
    ring

/-- Witness of claim C4: the sample domain, with vectors of length three that satisfy the
constraints (`3 * 6 = 18 = 1` in `ZMod 17`). -/
theorem computeH_quotient_witness :
    ∃ h, computeH [1, 2, 3] [4, 5, 6] [4, 10, 1] sampleDomain = some h ∧
      (∃ A B C H : Polynomial (ZMod 17),
        sampleDomain.Interpolates A [1, 2, 3] ∧ sampleDomain.Interpolates B [4, 5, 6] ∧
          sampleDomain.Interpolates C [4, 10, 1] ∧ IsCoefficientVector H h) ∧
      ∀ A B C H : Polynomial (ZMod 17),
        sampleDomain.Interpolates A [1, 2, 3] → sampleDomain.Interpolates B [4, 5, 6] →
        sampleDomain.Interpolates C [4, 10, 1] → IsCoefficientVector H h →
        A * B - C = H * (Polynomial.X ^ sampleDomain.Cardinality - 1) ∧
          H.degree < ((sampleDomain.Cardinality - 1 : ℕ) : WithBot ℕ) :=
  computeH_quotient (by decide) sampleDomain (by decide) (by decide)
    [1, 2, 3] [4, 5, 6] [4, 10, 1] rfl rfl (by decide) (by decide)

/-- Claim C5. The `Krs` of a returned proof is
`MSM(pk.G1.K, w[p:]) + kr * Delta + MSM(pk.G1.Z, h) + s * Ar + r * Bs1`, with `kr = -(r * s)`,
`Ar = MSM(pk.G1.A, w) + Alpha + r * Delta` and `Bs1 = MSM(pk.G1.B, w) + Beta + s * Delta`;
collecting the multiples of `Delta`, its coefficient is a natural number whose class in the
scalar field is `r * s`. -/
theorem Prove_Krs [NeZero q] (r1cs : R1CS q E) (pk : ProvingKey q P1 P2) (witness : List (ZMod q))
    (force : Bool) (rnd : RandomSource q E) (order : List Signal) (proof : Proof P1 P2)
    (h : List (ZMod q)) (r s : ZMod q)
    (hr : rnd.first = Except.ok r) (hs : rnd.second = Except.ok s)
    (hh : computeH (r1cs.solvedA witness) (r1cs.solvedB witness) (r1cs.solvedC witness)
      pk.Domain = some h)
    (ho : order.Perm [Signal.krs2Done, Signal.arDone, Signal.bs1Done])
    (hret : Prove r1cs pk witness force rnd order = Outcome.ret proof) :
    proof.Krs =
        msm pk.G1.K ((r1cs.solvedWires witness).drop r1cs.NbPublicVariables) +
          (-(r * s)).val • pk.G1.Delta + msm pk.G1.Z h +
          s.val • (msm pk.G1.A (r1cs.solvedWires witness) + pk.G1.Alpha + r.val • pk.G1.Delta) +
          r.val • (msm pk.G1.B (r1cs.solvedWires witness) + pk.G1.Beta + s.val • pk.G1.Delta) ∧
      proof.Krs =
        msm pk.G1.K ((r1cs.solvedWires witness).drop r1cs.NbPublicVariables) + msm pk.G1.Z h +
          s.val • (msm pk.G1.A (r1cs.solvedWires witness) + pk.G1.Alpha) +
          r.val • (msm pk.G1.B (r1cs.solvedWires witness) + pk.G1.Beta) +
          ((-(r * s)).val + s.val * r.val + r.val * s.val) • pk.G1.Delta ∧
      ((((-(r * s)).val + s.val * r.val + r.val * s.val : ℕ) : ZMod q) = r * s) := by
  obtain ⟨h', r', s', hh', hr', hs', hasm⟩ :=
    Prove_ret_inv r1cs pk witness force rnd order proof hret
  obtain rfl : r' = r := by rw [hr] at hr'; exact (Except.ok.inj hr').symm
  obtain rfl : s' = s := by rw [hs] at hs'; exact (Except.ok.inj hs').symm
  obtain rfl : h' = h := by rw [hh] at hh'; exact (Option.some.inj hh').symm
  obtain ⟨hA, hB, hB2, hZ, hp, hK⟩ := assemble_some_lengths _ _ _ _ _ _ _ _ hasm
  rw [assemble_eq r1cs pk _ _ _ _ order hA hB hB2 hZ hp hK ho] at hasm
  have hproof := Option.some.inj hasm
  have hK : proof.Krs = _ := congrArg Proof.Krs hproof.symm
  refine ⟨hK, ?_, ?_⟩
  · rw [hK]
    simp only [smul_add, add_smul, mul_smul]
    abel
  · push_cast
    simp only [ZMod.natCast_zmod_val]
    ring

/-- Witness of claim C5: the sample run, whose quotient vector is `[5, 7, 7, 0]`. -/
theorem Prove_Krs_witness :
    (28 : ZMod 34) =
        msm samplePK.G1.K ((sampleR1CS.solvedWires [5, 3]).drop sampleR1CS.NbPublicVariables) +
          (-((3 : ZMod 17) * 5)).val • samplePK.G1.Delta + msm samplePK.G1.Z ([5, 7, 7, 0] : List (ZMod 17)) +
          (5 : ZMod 17).val • (msm samplePK.G1.A (sampleR1CS.solvedWires [5, 3]) +
            samplePK.G1.Alpha + (3 : ZMod 17).val • samplePK.G1.Delta) +
          (3 : ZMod 17).val • (msm samplePK.G1.B (sampleR1CS.solvedWires [5, 3]) +
            samplePK.G1.Beta + (5 : ZMod 17).val • samplePK.G1.Delta) ∧
      (28 : ZMod 34) =
        msm samplePK.G1.K ((sampleR1CS.solvedWires [5, 3]).drop sampleR1CS.NbPublicVariables) +
          msm samplePK.G1.Z ([5, 7, 7, 0] : List (ZMod 17)) +
          (5 : ZMod 17).val • (msm samplePK.G1.A (sampleR1CS.solvedWires [5, 3]) +
            samplePK.G1.Alpha) +
          (3 : ZMod 17).val • (msm samplePK.G1.B (sampleR1CS.solvedWires [5, 3]) +
            samplePK.G1.Beta) +
          ((-((3 : ZMod 17) * 5)).val + (5 : ZMod 17).val * (3 : ZMod 17).val +
            (3 : ZMod 17).val * (5 : ZMod 17).val) • samplePK.G1.Delta ∧
      ((((-((3 : ZMod 17) * 5)).val + (5 : ZMod 17).val * (3 : ZMod 17).val +
        (3 : ZMod 17).val * (5 : ZMod 17).val : ℕ) : ZMod 17) = 3 * 5) :=
  Prove_Krs sampleR1CS samplePK [5, 3] false sampleRandom sampleOrder ⟨10, 28, 24⟩
    [5, 7, 7, 0] 3 5 rfl rfl (by decide!) (by decide) (by decide!)

/-- Claim C6. The `Ar` of a returned proof is the sum over all wires `i` of
`w[i] * pk.G1.A[i]`, plus `pk.G1.Alpha`, plus `r * pk.G1.Delta`, where `w` is the wire-value
vector and `r` the first sampled scalar. -/
theorem Prove_Ar (r1cs : R1CS q E) (pk : ProvingKey q P1 P2) (witness : List (ZMod q))
    (force : Bool) (rnd : RandomSource q E) (order : List Signal) (proof : Proof P1 P2)
    (r : ZMod q) (hr : rnd.first = Except.ok r)
    (hret : Prove r1cs pk witness force rnd order = Outcome.ret proof) :
    proof.Ar =
      (∑ i in Finset.range r1cs.nbWires,
        ((r1cs.solvedWires witness).getD i 0).val • pk.G1.A.getD i 0) +
      pk.G1.Alpha + r.val • pk.G1.Delta := by
  obtain ⟨h, r', s, _, hr', _, hasm⟩ := Prove_ret_inv r1cs pk witness force rnd order proof hret
  obtain rfl : r' = r := by rw [hr] at hr'; exact (Except.ok.inj hr').symm
  obtain ⟨hA, _⟩ := assemble_some_lengths _ _ _ _ _ _ _ _ hasm
  obtain ⟨_, har, _⟩ := assemble_some_parts _ _ _ _ _ _ _ _ hasm
  rw [computeAR1_eq pk _ _ _ _ hA] at har
  have hw : (r1cs.solvedWires witness).length = r1cs.nbWires := by simp [R1CS.solvedWires]
  rw [← Option.some.inj har, msm, hA, hw]

/-- Witness of claim C6: the sample run, whose proof is `(10, 28, 24)`. -/
theorem Prove_Ar_witness :
    (10 : ZMod 34) =
      (∑ i in Finset.range sampleR1CS.nbWires,
        ((sampleR1CS.solvedWires [5, 3]).getD i 0).val • samplePK.G1.A.getD i 0) +
      samplePK.G1.Alpha + (3 : ZMod 17).val • samplePK.G1.Delta :=
  Prove_Ar sampleR1CS samplePK [5, 3] false sampleRandom sampleOrder ⟨10, 28, 24⟩ 3 rfl
    (by decide!)

omit [AddCommGroup P1] in
/-- Claim C7. Whatever the length of `pk.G2.B`, with a wire-value vector of the same length,
`computeBS2` returns the sum over all `i` of `w[i] * pk.G2.B[i]`, plus `s * pk.G2.Delta`, plus
`pk.G2.Beta`, on the split path as on the single path; the three ranges `[0, k)`, `[k, 2k)`,
`[2k, len)` of the split, put end to end, are the whole vector. -/
theorem computeBS2_split_equivalence (pk : ProvingKey q P1 P2) (w : List (ZMod q)) (s : ℕ)
    (h : pk.G2.B.length = w.length) :
    computeBS2 pk w s =
        some ((∑ i in Finset.range pk.G2.B.length, (w.getD i 0).val • pk.G2.B.getD i 0) +
          s • pk.G2.Delta + pk.G2.Beta) ∧
      sliceTo pk.G2.B (pk.G2.B.length / 3) = some (pk.G2.B.take (pk.G2.B.length / 3)) ∧
      slice pk.G2.B (pk.G2.B.length / 3) (pk.G2.B.length / 3 * 2) =
        some ((List.range (pk.G2.B.length / 3)).map fun i =>
          pk.G2.B.getD (pk.G2.B.length / 3 + i) 0) ∧
      sliceFrom pk.G2.B (pk.G2.B.length / 3 * 2) = some (pk.G2.B.drop (pk.G2.B.length / 3 * 2)) ∧
      pk.G2.B.take (pk.G2.B.length / 3) ++
          ((List.range (pk.G2.B.length / 3)).map fun i =>
            pk.G2.B.getD (pk.G2.B.length / 3 + i) 0) ++
          pk.G2.B.drop (pk.G2.B.length / 3 * 2) = pk.G2.B := by
  have h1 : pk.G2.B.length / 3 ≤ pk.G2.B.length := Nat.div_le_self _ _
  have h2 : pk.G2.B.length / 3 * 2 ≤ pk.G2.B.length := by omega
  have h3 : pk.G2.B.length / 3 ≤ pk.G2.B.length / 3 * 2 := by omega
  have hmid : (pk.G2.B.take (pk.G2.B.length / 3 * 2)).drop (pk.G2.B.length / 3) =
      (List.range (pk.G2.B.length / 3)).map fun i =>
        pk.G2.B.getD (pk.G2.B.length / 3 + i) 0 := by
    apply List.ext_getElem
    · simp only [List.length_drop, List.length_take, List.length_map, List.length_range]
      omega
    · intro i hi1 hi2
      simp only [List.length_map, List.length_range] at hi2
      simp only [List.getElem_drop, List.getElem_take, List.getElem_map, List.getElem_range]
      rw [List.getD_eq_getElem _ _ (by omega)]
  refine ⟨computeBS2_eq pk w s h, ?_, ?_, ?_, ?_⟩
  · simp [sliceTo, h1]
  · simp only [slice, h2, h3, and_self, if_true, hmid]
  · simp [sliceFrom, h2]
  · rw [← hmid]
    have e : pk.G2.B.take (pk.G2.B.length / 3) =
        (pk.G2.B.take (pk.G2.B.length / 3 * 2)).take (pk.G2.B.length / 3) := by
      rw [List.take_take, Nat.min_eq_left h3]
    rw [e, List.take_append_drop, List.take_append_drop]

/-- Witness of claim C7: a vector of length `33`, which takes the split path. -/
theorem computeBS2_split_equivalence_witness :
    samplePKSplit.G2.B.length / 3 > 10 ∧
      (computeBS2 samplePKSplit sampleWiresSplit 5 =
        some ((∑ i in Finset.range samplePKSplit.G2.B.length,
            (sampleWiresSplit.getD i 0).val • samplePKSplit.G2.B.getD i 0) +
          5 • samplePKSplit.G2.Delta + samplePKSplit.G2.Beta) ∧
      sliceTo samplePKSplit.G2.B (samplePKSplit.G2.B.length / 3) =
        some (samplePKSplit.G2.B.take (samplePKSplit.G2.B.length / 3)) ∧
      slice samplePKSplit.G2.B (samplePKSplit.G2.B.length / 3)
          (samplePKSplit.G2.B.length / 3 * 2) =
        some ((List.range (samplePKSplit.G2.B.length / 3)).map fun i =>
          samplePKSplit.G2.B.getD (samplePKSplit.G2.B.length / 3 + i) 0) ∧
      sliceFrom samplePKSplit.G2.B (samplePKSplit.G2.B.length / 3 * 2) =
        some (samplePKSplit.G2.B.drop (samplePKSplit.G2.B.length / 3 * 2)) ∧
      samplePKSplit.G2.B.take (samplePKSplit.G2.B.length / 3) ++
          ((List.range (samplePKSplit.G2.B.length / 3)).map fun i =>
            samplePKSplit.G2.B.getD (samplePKSplit.G2.B.length / 3 + i) 0) ++
          samplePKSplit.G2.B.drop (samplePKSplit.G2.B.length / 3 * 2) = samplePKSplit.G2.B) :=
  ⟨by decide, computeBS2_split_equivalence samplePKSplit sampleWiresSplit 5 (by decide)⟩

/-- Claim C8. Whatever the order in which the three signals arrive, the loop of `computeKRS`
runs three iterations, leaves no signal unreceived, each signal having been received once, and
ends with `krs + krs2 + s * ar + r * bs1`. -/
theorem krsLoop_order_independent (krs2 ar bs1 krs : P1) (r s : ℕ) (order : List Signal)
    (ho : order.Perm [Signal.krs2Done, Signal.arDone, Signal.bs1Done]) :
    krsLoop krs2 ar bs1 r s 3 order krs 0 =
        some (krs + krs2 + s • ar + r • bs1, 3, []) ∧
      (order.count Signal.krs2Done = 1 ∧ order.count Signal.arDone = 1 ∧
        order.count Signal.bs1Done = 1) ∧
      order ∈ [[Signal.krs2Done, Signal.arDone, Signal.bs1Done],
        [Signal.krs2Done, Signal.bs1Done, Signal.arDone],
        [Signal.arDone, Signal.krs2Done, Signal.bs1Done],
        [Signal.arDone, Signal.bs1Done, Signal.krs2Done],
        [Signal.bs1Done, Signal.krs2Done, Signal.arDone],
        [Signal.bs1Done, Signal.arDone, Signal.krs2Done]] := by
  refine ⟨krsLoop_perm krs2 ar bs1 krs r s order ho, ?_, ?_⟩
  · simp only [ho.count_eq]
    decide
  · simp only [List.mem_cons, List.mem_singleton, List.not_mem_nil, or_false]
    exact perm_three order ho

/-- Witness of claim C8: one of the six orders, on points of `ZMod 34`. -/
theorem krsLoop_order_independent_witness :
    krsLoop (2 : ZMod 34) 4 6 3 5 3 sampleOrder 8 0 =
        some (8 + 2 + 5 • (4 : ZMod 34) + 3 • (6 : ZMod 34), 3, []) ∧
      (sampleOrder.count Signal.krs2Done = 1 ∧ sampleOrder.count Signal.arDone = 1 ∧
        sampleOrder.count Signal.bs1Done = 1) ∧
      sampleOrder ∈ [[Signal.krs2Done, Signal.arDone, Signal.bs1Done],
        [Signal.krs2Done, Signal.bs1Done, Signal.arDone],
        [Signal.arDone, Signal.krs2Done, Signal.bs1Done],
        [Signal.arDone, Signal.bs1Done, Signal.krs2Done],
        [Signal.bs1Done, Signal.krs2Done, Signal.arDone],
        [Signal.bs1Done, Signal.arDone, Signal.krs2Done]] :=
  krsLoop_order_independent 2 4 6 8 3 5 sampleOrder (by decide)

/-- Claim C9. Two runs of `Prove` on the same constraint system, key and witness, with sampled
pairs `(r, s)` and `(r', s')`, the points `pk.G1.Delta` and `pk.G2.Delta` being non-zero points
of order `q`: if `r ≠ r'` the two `Ar` differ, if `s ≠ s'` the two `Bs` differ, so different
pairs give different proofs; equal pairs give equal proofs. -/
theorem Prove_rerandomization [Fact (Nat.Prime q)] (r1cs : R1CS q E) (pk : ProvingKey q P1 P2)
    (witness : List (ZMod q)) (force : Bool) (rnd rnd' : RandomSource q E)
    (order order' : List Signal) (proof proof' : Proof P1 P2) (r s r' s' : ZMod q)
    (hD1 : q • pk.G1.Delta = 0) (hD1' : pk.G1.Delta ≠ 0)
    (hD2 : q • pk.G2.Delta = 0) (hD2' : pk.G2.Delta ≠ 0)
    (hr : rnd.first = Except.ok r) (hs : rnd.second = Except.ok s)
    (hr' : rnd'.first = Except.ok r') (hs' : rnd'.second = Except.ok s')
    (ho : order.Perm [Signal.krs2Done, Signal.arDone, Signal.bs1Done])
    (ho' : order'.Perm [Signal.krs2Done, Signal.arDone, Signal.bs1Done])
    (hret : Prove r1cs pk witness force rnd order = Outcome.ret proof)
    (hret' : Prove r1cs pk witness force rnd' order' = Outcome.ret proof') :
    (r ≠ r' → proof.Ar ≠ proof'.Ar) ∧ (s ≠ s' → proof.Bs ≠ proof'.Bs) ∧
      ((r, s) ≠ (r', s') → proof ≠ proof') ∧ ((r, s) = (r', s') → proof = proof') := by
  obtain ⟨h, r₁, s₁, hh, hr₁, hs₁, hasm⟩ :=
    Prove_ret_inv r1cs pk witness force rnd order proof hret
  obtain ⟨h', r₂, s₂, hh', hr₂, hs₂, hasm'⟩ :=
    Prove_ret_inv r1cs pk witness force rnd' order' proof' hret'
  obtain rfl : r = r₁ := by rw [hr] at hr₁; exact Except.ok.inj hr₁
  obtain rfl : s = s₁ := by rw [hs] at hs₁; exact Except.ok.inj hs₁
  obtain rfl : r' = r₂ := by rw [hr'] at hr₂; exact Except.ok.inj hr₂
  obtain rfl : s' = s₂ := by rw [hs'] at hs₂; exact Except.ok.inj hs₂
  obtain rfl : h = h' := by rw [hh] at hh'; exact Option.some.inj hh'
  obtain ⟨hA, hB, hB2, hZ, hp, hK⟩ := assemble_some_lengths _ _ _ _ _ _ _ _ hasm
  rw [assemble_eq r1cs pk _ _ _ _ order hA hB hB2 hZ hp hK ho] at hasm
  rw [assemble_eq r1cs pk _ _ _ _ order' hA hB hB2 hZ hp hK ho'] at hasm'
  have hproof := (Option.some.inj hasm).symm
  have hproof' := (Option.some.inj hasm').symm
  have hAr : r ≠ r' → proof.Ar ≠ proof'.Ar := by
    intro hne heq
    rw [hproof, hproof'] at heq
    exact hne (val_nsmul_injective pk.G1.Delta hD1 hD1' r r' (add_left_cancel heq))
  have hBs : s ≠ s' → proof.Bs ≠ proof'.Bs := by
    intro hne heq
    rw [hproof, hproof'] at heq
    exact hne (val_nsmul_injective pk.G2.Delta hD2 hD2' s s'
      (add_left_cancel (add_right_cancel heq)))
  refine ⟨hAr, hBs, ?_, ?_⟩
  · intro hne heq
    by_cases hrr : r = r'
    · by_cases hss : s = s'
      · exact hne (by rw [hrr, hss])
      · exact hBs hss (by rw [heq])
    · exact hAr hrr (by rw [heq])
  · intro heq
    obtain ⟨rfl, rfl⟩ := Prod.mk.inj heq
    rw [hproof, hproof']

/-- Witness of claim C9: the sample run with `(r, s) = (3, 5)` and with `(r, s) = (4, 6)`. -/
theorem Prove_rerandomization_witness :
    (10 : ZMod 34) ≠ 16 ∧ (24 : ZMod 34) ≠ 0 ∧
      (⟨10, 28, 24⟩ : Proof (ZMod 34) (ZMod 34)) ≠ ⟨16, 22, 0⟩ :=
  have key := Prove_rerandomization sampleR1CS samplePK [5, 3] false sampleRandom
    sampleRandomOther sampleOrder [Signal.krs2Done, Signal.bs1Done, Signal.arDone]
    ⟨10, 28, 24⟩ ⟨16, 22, 0⟩ 3 5 4 6 (by decide) (by decide) (by decide) (by decide)
    rfl rfl rfl rfl (by decide) (by decide) (by decide!) (by decide!)
  ⟨key.1 (by decide), key.2.1 (by decide), key.2.2.1 (by decide)⟩

/-- Claim C10. On an input that passes the witness-size check and the solve step (the solver
succeeds, or `force` is set), a failure of the random source while sampling `r`, or while
sampling `s`, makes `Prove` return that error and no proof, whatever `force` is. -/
theorem Prove_randomness_error (r1cs : R1CS q E) (pk : ProvingKey q P1 P2)
    (witness : List (ZMod q)) (force : Bool) (rnd : RandomSource q E) (order : List Signal)
    (e : E)
    (hsize : (witness.length : Int) =
      (r1cs.NbPublicVariables : Int) - 1 + (r1cs.NbSecretVariables : Int))
    (hn : r1cs.NbConstraints ≤ pk.Domain.Cardinality)
    (hsolve : (r1cs.Solve witness).err = none ∨ force = true)
    (hrnd : rnd.first = Except.error e ∨
      ((∃ r, rnd.first = Except.ok r) ∧ rnd.second = Except.error e)) :
    Prove r1cs pk witness force rnd order = Outcome.fail (ProveError.external e) := by
  have hlen : (r1cs.solvedA witness).length = r1cs.NbConstraints := by simp [R1CS.solvedA]
  obtain ⟨h, hH⟩ : ∃ h, computeH (r1cs.solvedA witness) (r1cs.solvedB witness)
      (r1cs.solvedC witness) pk.Domain = some h :=
    ⟨_, computeH_eq_some (r1cs.solvedA witness) (r1cs.solvedB witness)
      (r1cs.solvedC witness) pk.Domain (by rw [hlen]; exact hn)
      (by simp [R1CS.solvedA, R1CS.solvedB]) (by simp [R1CS.solvedA, R1CS.solvedC])⟩
  simp only [R1CS.solvedA, R1CS.solvedB, R1CS.solvedC] at hH
  dsimp only [Prove]
  rw [if_neg (by simpa using hsize), if_neg (by omega)]
  split
  · exfalso
    rcases hsolve with h | h <;> simp_all
  · rw [hH]
    rcases hrnd with h1 | ⟨⟨r, h1⟩, h2⟩
    · simp only [h1]
    · simp only [h1, h2]

/-- Witness of claim C10: the first draw fails, on a witness the solver accepts. -/
theorem Prove_randomness_error_witness :
    Prove sampleR1CS samplePK [5, 3] false sampleRandomFailsFirst sampleOrder =
        Outcome.fail (ProveError.external 7) :=
  Prove_randomness_error sampleR1CS samplePK [5, 3] false sampleRandomFailsFirst sampleOrder 7
    (by decide) (by decide) (Or.inl (by decide)) (Or.inl rfl)

/-- Claim C11. When every point of the proving key lies in the subgroup of order `q` of its
group, every proof `Prove` returns, whatever `force` is, passes `isValid`: `Ar` and `Krs` lie
in the subgroup of the first group and `Bs` in that of the second; and `isValid` is true
exactly when the three membership checks hold. -/
theorem Prove_isValid [DecidableEq P1] [DecidableEq P2] (r1cs : R1CS q E)
    (pk : ProvingKey q P1 P2) (witness : List (ZMod q)) (force : Bool)
    (rnd : RandomSource q E) (order : List Signal) (proof : Proof P1 P2)
    (hpk : pk.InSubGroups q)
    (hret : Prove r1cs pk witness force rnd order = Outcome.ret proof) :
    proof.isValid q = true ∧
      (q • proof.Ar = 0 ∧ q • proof.Krs = 0 ∧ q • proof.Bs = 0) ∧
      ∀ p : Proof P1 P2,
        p.isValid q = true ↔ (q • p.Ar = 0 ∧ q • p.Krs = 0 ∧ q • p.Bs = 0) := by
  have hiff : ∀ p : Proof P1 P2,
      p.isValid q = true ↔ (q • p.Ar = 0 ∧ q • p.Krs = 0 ∧ q • p.Bs = 0) := by
    intro p
    simp [Proof.isValid, IsInSubGroup, and_assoc]
  obtain ⟨⟨hα, hβ, hΔ⟩, ⟨hA, hB, hZ, hK⟩, hβ2, hΔ2, hB2⟩ := hpk
  obtain ⟨h, r, s, _, _, _, hasm⟩ := Prove_ret_inv r1cs pk witness force rnd order proof hret
  obtain ⟨lA, lB, lB2, _, _, _⟩ := assemble_some_lengths _ _ _ _ _ _ _ _ hasm
  obtain ⟨bs1, har, hbs1, hkrs, hBs⟩ := assemble_some_parts _ _ _ _ _ _ _ _ hasm
  rw [computeAR1_eq pk _ _ _ _ lA] at har
  rw [computeBS1_eq pk _ _ _ _ lB] at hbs1
  rw [computeBS2_eq pk _ _ lB2] at hBs
  have hAr : q • proof.Ar = 0 := by
    rw [← Option.some.inj har]
    exact nsmul_add_eq_zero q _ _ (nsmul_add_eq_zero q _ _ (nsmul_msm_eq_zero q _ _ hA) hα)
      (nsmul_nsmul_eq_zero q _ _ hΔ)
  have hbs : q • bs1 = 0 := by
    rw [← Option.some.inj hbs1]
    exact nsmul_add_eq_zero q _ _ (nsmul_add_eq_zero q _ _ (nsmul_msm_eq_zero q _ _ hB) hβ)
      (nsmul_nsmul_eq_zero q _ _ hΔ)
  have hBs' : q • proof.Bs = 0 := by
    rw [← Option.some.inj hBs]
    exact nsmul_add_eq_zero q _ _ (nsmul_add_eq_zero q _ _ (nsmul_msm_eq_zero q _ _ hB2)
      (nsmul_nsmul_eq_zero q _ _ hΔ2)) hβ2
  have hKrs : q • proof.Krs = 0 :=
    computeKRS_nsmul_eq_zero q r1cs pk _ _ _ _ _ _ _ _ _ _ order hΔ hZ hK hAr hbs hkrs
  exact ⟨(hiff proof).mpr ⟨hAr, hKrs, hBs'⟩, ⟨hAr, hKrs, hBs'⟩, hiff⟩

/-- Witness of claim C11: the proof returned under `force = true` on a witness the sample
solver rejects; a proof with a point outside the subgroup is not valid. -/
theorem Prove_isValid_witness :
    Proof.isValid 17 (⟨22, 4, 2⟩ : Proof (ZMod 34) (ZMod 34)) = true ∧
      (17 • (22 : ZMod 34) = 0 ∧ 17 • (4 : ZMod 34) = 0 ∧ 17 • (2 : ZMod 34) = 0) ∧
      Proof.isValid 17 (⟨22, 1, 2⟩ : Proof (ZMod 34) (ZMod 34)) = false :=
  have key := Prove_isValid sampleR1CS samplePK [5, 4] true sampleRandom sampleOrder
    ⟨22, 4, 2⟩ (by decide) (by decide!)
  ⟨key.1, key.2.1, by decide⟩

/-- Claim C12. For vectors `a`, `b`, `c` of one length at most the cardinality `n` of the
domain, `computeH` does not fail and returns a vector of length `n`. Each input is extended to
length `n` by `n - len(a)` zeros placed after its entries, and it is to the extended vectors
that the transforms are applied: the result of `computeH` is the last inverse transform of the
combination of the coset transforms of the inverse transforms of the three extended vectors.
In particular `computeH` returns the same on the inputs and on the inputs already extended. -/
theorem computeH_length_padding (a b c : List (ZMod q)) (d : Domain q)
    (hab : a.length = b.length) (hac : a.length = c.length) (hn : a.length ≤ d.Cardinality) :
    (∃ h, computeH a b c d = some h ∧ h.length = d.Cardinality) ∧
      (∀ x ∈ [a, b, c],
        (x ++ List.replicate (d.Cardinality - a.length) (0 : ZMod q)).length = d.Cardinality ∧
        (∀ i < a.length, (x ++ List.replicate (d.Cardinality - a.length) (0 : ZMod q))[i]? =
          x[i]?) ∧
        (∀ i, a.length ≤ i → i < d.Cardinality →
          (x ++ List.replicate (d.Cardinality - a.length) (0 : ZMod q))[i]? = some 0)) ∧
      computeH a b c d =
        (combine
          (d.FFT (d.FFTInverse (a ++ List.replicate (d.Cardinality - a.length) 0)
            Decimation.DIF 0) Decimation.DIT 1)
          (d.FFT (d.FFTInverse (b ++ List.replicate (d.Cardinality - a.length) 0)
            Decimation.DIF 0) Decimation.DIT 1)
          (d.FFT (d.FFTInverse (c ++ List.replicate (d.Cardinality - a.length) 0)
            Decimation.DIF 0) Decimation.DIT 1)).map
          (fun h => d.FFTInverse h Decimation.DIF 1) ∧
      computeH a b c d =
        computeH (a ++ List.replicate (d.Cardinality - a.length) 0)
          (b ++ List.replicate (d.Cardinality - a.length) 0)
          (c ++ List.replicate (d.Cardinality - a.length) 0) d := by
  have hH := computeH_eq_some a b c d hn hab.le hac.le
  refine ⟨⟨_, hH, computeH_length _ _ _ _ _ hH⟩, ?_, ?_, ?_⟩
  · intro x hx
    have hxl : x.length = a.length := by
      simp only [List.mem_cons, List.mem_singleton, List.not_mem_nil, or_false] at hx
      rcases hx with rfl | rfl | rfl
      · rfl
      · exact hab.symm
      · exact hac.symm
    refine ⟨?_, ?_, ?_⟩
    · rw [List.length_append, List.length_replicate, hxl]; omega
    · intro i hi
      rw [List.getElem?_append_left (by omega)]
    · intro i hi1 hi2
      rw [List.getElem?_append_right (by omega), List.getElem?_replicate]
      simp only [ite_eq_left_iff, not_lt, reduceCtorEq, imp_false, not_le]
      omega
  · simp only [computeH, not_lt.mpr hn, if_false]
    cases combine
      (d.FFT (d.FFTInverse (a ++ List.replicate (d.Cardinality - a.length) 0)
        Decimation.DIF 0) Decimation.DIT 1)
      (d.FFT (d.FFTInverse (b ++ List.replicate (d.Cardinality - a.length) 0)
        Decimation.DIF 0) Decimation.DIT 1)
      (d.FFT (d.FFTInverse (c ++ List.replicate (d.Cardinality - a.length) 0)
        Decimation.DIF 0) Decimation.DIT 1) <;> rfl
  · have hlen : ∀ x : List (ZMod q), x.length = a.length →
        (x ++ List.replicate (d.Cardinality - a.length) (0 : ZMod q)).length =
          d.Cardinality := by
      intro x hx
      rw [List.length_append, List.length_replicate, hx]; omega
    rw [hH, computeH_eq_some _ _ _ d (hlen a rfl).le
      (by rw [hlen a rfl, hlen b hab.symm]) (by rw [hlen a rfl, hlen c hac.symm])]
    simp only [hlen a rfl, Nat.sub_self, List.replicate_zero, List.append_nil]

/-- Witness of claim C12: three vectors of length three on the sample domain of cardinality
four over `ZMod 17`. Each is extended by one zero; the coset transforms of the inverse
transforms of the extended vectors are `[2, 8, 5, 8]`, `[4, 2, 5, 4]` and `[14, 4, 3, 12]`, and
`computeH` returns `[11, 4, 9, 2]`. -/
theorem computeH_length_padding_witness :
    ((∃ h, computeH [1, 2, 3] [4, 5, 6] [4, 10, 2] sampleDomain = some h ∧ h.length = 4) ∧
      computeH [1, 2, 3] [4, 5, 6] [4, 10, 2] sampleDomain =
        (combine
          (sampleDomain.FFT (sampleDomain.FFTInverse ([1, 2, 3] ++ List.replicate (4 - 3) 0)
            Decimation.DIF 0) Decimation.DIT 1)
          (sampleDomain.FFT (sampleDomain.FFTInverse ([4, 5, 6] ++ List.replicate (4 - 3) 0)
            Decimation.DIF 0) Decimation.DIT 1)
          (sampleDomain.FFT (sampleDomain.FFTInverse ([4, 10, 2] ++ List.replicate (4 - 3) 0)
            Decimation.DIF 0) Decimation.DIT 1)).map
          (fun h => sampleDomain.FFTInverse h Decimation.DIF 1)) ∧
      [1, 2, 3] ++ List.replicate (4 - 3) (0 : ZMod 17) = [1, 2, 3, 0] ∧
      sampleDomain.FFT (sampleDomain.FFTInverse ([1, 2, 3] ++ List.replicate (4 - 3) 0)
        Decimation.DIF 0) Decimation.DIT 1 = [2, 8, 5, 8] ∧
      sampleDomain.FFT (sampleDomain.FFTInverse ([4, 5, 6] ++ List.replicate (4 - 3) 0)
        Decimation.DIF 0) Decimation.DIT 1 = [4, 2, 5, 4] ∧
      sampleDomain.FFT (sampleDomain.FFTInverse ([4, 10, 2] ++ List.replicate (4 - 3) 0)
        Decimation.DIF 0) Decimation.DIT 1 = [14, 4, 3, 12] ∧
      computeH [1, 2, 3] [4, 5, 6] [4, 10, 2] sampleDomain = some [11, 4, 9, 2] :=
  ⟨⟨(computeH_length_padding [1, 2, 3] [4, 5, 6] [4, 10, 2] sampleDomain rfl rfl
      (by decide)).1,
    (computeH_length_padding [1, 2, 3] [4, 5, 6] [4, 10, 2] sampleDomain rfl rfl
      (by decide)).2.2.1⟩,
    by decide, by decide!, by decide!, by decide!, by decide!⟩

omit [AddCommGroup P1] in
/-- Claim C13, as amended. When `computeBS2` takes the split path (`k = len(pk.G2.B) / 3` above
ten), on a wire-value vector as long as `pk.G2.B`, it returns after exactly three multi-scalar
multiplications, whose point and scalar vectors have `k`, `k` and `len - 2k = k + len % 3`
entries; the three have one size exactly when `len` is a multiple of three. -/
theorem computeBS2_split_sizes (pk : ProvingKey q P1 P2) (w : List (ZMod q)) (s : ℕ)
    (h : pk.G2.B.length = w.length) (hk : pk.G2.B.length / 3 > 10) :
    (computeBS2Traced pk w s).map (fun r => r.2.map fun call => (call.1.length, call.2.length)) =
        some [(pk.G2.B.length / 3, pk.G2.B.length / 3),
          (pk.G2.B.length / 3, pk.G2.B.length / 3),
          (pk.G2.B.length / 3 + pk.G2.B.length % 3, pk.G2.B.length / 3 + pk.G2.B.length % 3)] ∧
      (∃ Bs calls, computeBS2Traced pk w s = some (Bs, calls) ∧ computeBS2 pk w s = some Bs) ∧
      pk.G2.B.length / 3 + pk.G2.B.length / 3 +
          (pk.G2.B.length / 3 + pk.G2.B.length % 3) = pk.G2.B.length ∧
      (pk.G2.B.length / 3 + pk.G2.B.length % 3 = pk.G2.B.length / 3 ↔
        3 ∣ pk.G2.B.length) := by
  have h1 : pk.G2.B.length / 3 ≤ pk.G2.B.length := Nat.div_le_self _ _
  refine ⟨?_, ?_, by omega, by omega⟩
  · rw [computeBS2Traced_eq pk w s h, if_pos hk]
    simp only [Option.map_some', List.map_cons, List.map_nil, List.length_take,
      List.length_drop, Option.some.injEq, List.cons.injEq, Prod.mk.injEq, and_true, ← h]
    omega
  · refine ⟨_, _, computeBS2Traced_eq pk w s h, ?_⟩
    rw [computeBS2, computeBS2Traced_eq pk w s h, Option.map_some']

/-- Witness of claim C13, as amended: on `34` points and `34` scalars `computeBS2` runs three
multi-scalar multiplications, of sizes `11`, `11` and `12`. -/
theorem computeBS2_split_sizes_witness :
    (computeBS2Traced samplePKUneven sampleWiresUneven 5).map
        (fun r => r.2.map fun call => (call.1.length, call.2.length)) =
      some [(samplePKUneven.G2.B.length / 3, samplePKUneven.G2.B.length / 3),
        (samplePKUneven.G2.B.length / 3, samplePKUneven.G2.B.length / 3),
        (samplePKUneven.G2.B.length / 3 + samplePKUneven.G2.B.length % 3,
          samplePKUneven.G2.B.length / 3 + samplePKUneven.G2.B.length % 3)] ∧
      samplePKUneven.G2.B.length / 3 = 11 ∧ samplePKUneven.G2.B.length % 3 = 1 :=
  ⟨(computeBS2_split_sizes samplePKUneven sampleWiresUneven 5 (by decide) (by decide)).1,
    by decide, by decide⟩

/-- Counterexample to claim C13 as stated: on `34` points and `34` scalars `computeBS2` takes
the split path, and its three multi-scalar multiplications run on `11`, `11` and `12` points:
the third sub-vector is longer than the first two. -/
theorem computeBS2_split_sizes_counterexample :
    samplePKUneven.G2.B.length / 3 > 10 ∧
      samplePKUneven.G2.B.length = sampleWiresUneven.length ∧
      (computeBS2Traced samplePKUneven sampleWiresUneven 5).map
          (fun r => r.2.map fun call => call.1.length) = some [11, 11, 12] ∧
      ¬ ∃ n, (computeBS2Traced samplePKUneven sampleWiresUneven 5).map
          (fun r => r.2.map fun call => call.1.length) = some [n, n, n] := by
  have e : (computeBS2Traced samplePKUneven sampleWiresUneven 5).map
      (fun r => r.2.map fun call => call.1.length) = some [11, 11, 12] := by
    decide
  refine ⟨by decide, by decide, e, ?_⟩
  rintro ⟨n, hn⟩
  rw [e] at hn
  simp only [Option.some.injEq, List.cons.injEq, and_true] at hn
  omega

/-- Claim C14, the code at a failing input: for a system with two public variables and one
secret variable and a witness of length three, the message reads
`expected 2 = 2 (public - ONE_WIRE) + 1 (secret)`, and `2` is not `2 + 1`: the number shown as
the public part is `NbPublicVariables`, not `NbPublicVariables - 1`. -/
theorem Prove_size_message_inconsistent :
    Prove sampleR1CS samplePK [5, 4, 1] false sampleRandom sampleOrder =
        Outcome.fail (ProveError.invalidWitnessSize 3 2 2 1) ∧
      (ProveError.invalidWitnessSize 3 2 2 1 : ProveError ℕ).message toString =
        "invalid witness size, got 3, expected 2 = 2 (public - ONE_WIRE) + 1 (secret)" ∧
      (2 : Int) ≠ 2 + 1 := by
  refine ⟨by decide, by decide, by decide⟩

/-- Claim C15. The constant of the combine step, computed as the inverse of `-2`, is
`-(2⁻¹)`, and its product with `-2` is `1`; the combine step stores
`(a[i] * b[i] - c[i]) * minusTwoInv` at every position `i`; and in `computeH` it is applied to
the forward coset transforms of the interpolated inputs, whose entry `i` is the value at the
coset point `CosetShift * Generator ^ i`. -/
theorem computeH_combine [Fact (Nat.Prime q)] (hq : q ≠ 2) (a b c : List (ZMod q))
    (d : Domain q) (hb : a.length ≤ b.length) (hc : a.length ≤ c.length) :
    (minusTwoInv q = -((2 : ZMod q)⁻¹) ∧ minusTwoInv q * (-2) = 1) ∧
      (∃ l, combine a b c = some l ∧ l.length = a.length ∧
        ∀ i < a.length,
          l[i]? = some ((a.getD i 0 * b.getD i 0 - c.getD i 0) * minusTwoInv q)) ∧
      computeH a b c d =
        (combine
          (d.FFT (d.FFTInverse (a ++ List.replicate (d.Cardinality - a.length) 0)
            Decimation.DIF 0) Decimation.DIT 1)
          (d.FFT (d.FFTInverse (b ++ List.replicate (d.Cardinality - a.length) 0)
            Decimation.DIF 0) Decimation.DIT 1)
          (d.FFT (d.FFTInverse (c ++ List.replicate (d.Cardinality - a.length) 0)
            Decimation.DIF 0) Decimation.DIT 1)).bind
          (fun v => if d.Cardinality < a.length then none
            else some (d.FFTInverse v Decimation.DIF 1)) ∧
      ∀ (x : List (ZMod q)) (i : ℕ), i < x.length →
        (d.FFT x Decimation.DIT 1).getD i 0 = polyEval x (d.CosetShift * d.Generator ^ i) := by
  have h2 := neg_two_ne_zero_of_ne_two hq
  refine ⟨⟨?_, ?_⟩, ?_, ?_, ?_⟩
  · unfold minusTwoInv
    rw [inv_neg]
  · unfold minusTwoInv
    exact inv_mul_cancel₀ h2
  · refine ⟨_, combine_eq_some a b c hb hc, by simp, fun i hi => ?_⟩
    rw [List.getElem?_map, List.getElem?_range hi]
    rfl
  · unfold computeH
    by_cases hn : d.Cardinality < a.length
    · simp only [hn, if_true]
      cases combine _ _ _ <;> rfl
    · simp only [hn, if_false]
      cases combine _ _ _ <;> rfl
  · intro x i hi
    unfold Domain.FFT
    rw [getD_map_range _ _ _ hi, pow_one]

/-- Witness of claim C15: the sample domain over `ZMod 17`, where `minusTwoInv` is `8`. -/
theorem computeH_combine_witness :
    (minusTwoInv 17 = -((2 : ZMod 17)⁻¹) ∧ minusTwoInv 17 * (-2) = 1) ∧
      combine [1, 2, 3] [4, 5, 6] [4, 10, 2] = some [0, 0, (9 : ZMod 17)] :=
  ⟨(computeH_combine (by decide) [1, 2, 3] [4, 5, 6] [4, 10, 2] sampleDomain (by decide)
    (by decide)).1, by decide!⟩

omit [AddCommGroup P1] in
/-- Claim C16. On a wire-value vector as long as `pk.G2.B`, `computeBS2` takes its three-way
split, running three multi-scalar multiplications over `[:k]`, `[k:2k]` and `[2k:]` with
`k = len(pk.G2.B) / 3`, exactly when `len(pk.G2.B) / 3 > 10`, which is exactly when the length
is at least `33`; up to length `32` (lengths `31` and `32` included) it runs one multi-scalar
multiplication, over the whole vectors. -/
theorem computeBS2_threshold (pk : ProvingKey q P1 P2) (w : List (ZMod q)) (s : ℕ)
    (h : pk.G2.B.length = w.length) :
    (pk.G2.B.length / 3 > 10 ↔ 33 ≤ pk.G2.B.length) ∧
      (∃ Bs calls, computeBS2Traced pk w s = some (Bs, calls) ∧ computeBS2 pk w s = some Bs) ∧
      (33 ≤ pk.G2.B.length →
        (computeBS2Traced pk w s).map Prod.snd =
          some [(pk.G2.B.take (pk.G2.B.length / 3), w.take (pk.G2.B.length / 3)),
            ((pk.G2.B.take (pk.G2.B.length / 3 * 2)).drop (pk.G2.B.length / 3),
              (w.take (pk.G2.B.length / 3 * 2)).drop (pk.G2.B.length / 3)),
            (pk.G2.B.drop (pk.G2.B.length / 3 * 2), w.drop (pk.G2.B.length / 3 * 2))]) ∧
      (pk.G2.B.length ≤ 32 → (computeBS2Traced pk w s).map Prod.snd = some [(pk.G2.B, w)]) ∧
      ((computeBS2Traced pk w s).map (fun r => r.2.length) = some 3 ↔ 33 ≤ pk.G2.B.length) ∧
      ((computeBS2Traced pk w s).map (fun r => r.2.length) = some 1 ↔
        pk.G2.B.length ≤ 32) := by
  have e := computeBS2Traced_eq pk w s h
  refine ⟨by omega, ⟨_, _, e, ?_⟩, fun h33 => ?_, fun h32 => ?_, ?_, ?_⟩
  · rw [computeBS2, e, Option.map_some']
  · rw [e, if_pos (by omega), Option.map_some']
  · rw [e, if_neg (by omega), Option.map_some']
  · rw [e, Option.map_some']
    by_cases hk : pk.G2.B.length / 3 > 10
    · simp only [if_pos hk, List.length_cons, List.length_nil, true_iff]
      omega
    · simp only [if_neg hk, List.length_cons, List.length_nil, Option.some.injEq]
      omega
  · rw [e, Option.map_some']
    by_cases hk : pk.G2.B.length / 3 > 10
    · simp only [if_pos hk, List.length_cons, List.length_nil, Option.some.injEq]
      omega
    · simp only [if_neg hk, List.length_cons, List.length_nil, true_iff]
      omega

/-- Witness of claim C16: on `33` points `computeBS2` runs three multi-scalar multiplications,
of `11` points each; on `32` points it runs one, of `32` points. -/
theorem computeBS2_threshold_witness :
    ((computeBS2Traced samplePKSplit sampleWiresSplit 5).map (fun r => r.2.length) = some 3 ∧
      (computeBS2Traced samplePKSingle (sampleWiresSplit.take 32) 5).map
        (fun r => r.2.length) = some 1) ∧
      (computeBS2Traced samplePKSplit sampleWiresSplit 5).map
        (fun r => r.2.map fun call => call.1.length) = some [11, 11, 11] ∧
      (computeBS2Traced samplePKSingle (sampleWiresSplit.take 32) 5).map
        (fun r => r.2.map fun call => call.1.length) = some [32] :=
  ⟨⟨(computeBS2_threshold samplePKSplit sampleWiresSplit 5 (by decide)).2.2.2.2.1.2
      (by decide),
    (computeBS2_threshold samplePKSingle (sampleWiresSplit.take 32) 5
      (by decide)).2.2.2.2.2.2 (by decide)⟩,
    by decide, by decide⟩

end Claims

end Groth16

namespace Lzss

/-! ## Lemmas on the decompression circuit -/

section Lemmas

variable {p : ℕ}

theorem evaluatePlonkExpression_eq (api : API p) (hapi : api.EvaluatesPlonkExpression)
    (a b : ZMod p) (aCoeff bCoeff mCoeff constant : ℤ) :
    evaluatePlonkExpression api a b aCoeff bCoeff mCoeff constant =
      a * (aCoeff : ZMod p) + b * (bCoeff : ZMod p) + (mCoeff : ZMod p) * a * b +
        (constant : ZMod p) := by
  unfold evaluatePlonkExpression
  cases h : api.PlonkAPI with
  | none => rfl
  | some f =>
    simp only
    rw [hapi f h]
    ring

/-- What a successful iteration of the loop computed. -/
theorem loopBody_some (ctx : Context p) (outI : ℕ) (st st' : LoopState p)
    (vals : IterValues p) (h : loopBody ctx outI st = some (st', vals)) :
    ∃ lenByte toCopy : ZMod p,
      Lookup ctx.bytesTable st.inI = some vals.curr ∧
      vals.currIndicatesLongBr =
        IsZero (vals.curr * ctx.decompressionNotBypassed - (ctx.symbolLong : ZMod p)) ∧
      vals.currIndicatesShortBr =
        IsZero (vals.curr * ctx.decompressionNotBypassed - (ctx.symbolLong : ZMod p) -
          ((ctx.symbolShort - ctx.symbolLong : ℤ) : ZMod p)) ∧
      vals.currIndicatesDr =
        IsZero (vals.curr * ctx.decompressionNotBypassed - (ctx.symbolLong : ZMod p) -
          ((ctx.symbolDict - ctx.symbolLong : ℤ) : ZMod p)) ∧
      Select st.copyLen01
        ((vals.currIndicatesLongBr + vals.currIndicatesShortBr + vals.currIndicatesDr) *
          (1 + lenByte)) (st.copyLen - 1) = some st'.copyLen ∧
      st'.copyLen01 = copyLen01Of st'.copyLen ∧
      vals.copying = copyingOf ctx.api st'.copyLen01 st'.copyLen ∧
      Select vals.copying toCopy vals.curr = some vals.dOut ∧
      st'.inI = updateInI ctx.api st vals.inIDelta ∧
      vals.eofNow = IsZero (st'.inI - ctx.cLength) ∧
      st'.eof = vals.eofNow ∧
      st'.dLength = st.dLength + (vals.eofNow - st.eof) * ((outI + 1 : ℕ) : ZMod p) ∧
      st'.eofIsZeroConstant = false ∧
      st'.outTable = st.outTable ++ [vals.dOut] ∧
      st'.d = st.d ++ [vals.dOut] := by
  simp only [loopBody, Option.pure_def, Option.bind_eq_bind, Option.bind_eq_some,
    Option.some.injEq, Prod.mk.injEq] at h
  obtain ⟨curr, hcurr, lenByte, _, _, _, copyLen, hcl, toCopy, _, dOut, hd, inIDelta, _,
    hst, hvals⟩ := h
  subst hst hvals
  exact ⟨lenByte, toCopy, hcurr, rfl, rfl, rfl, hcl, rfl, rfl, hd, rfl, rfl, rfl, rfl,
    rfl, rfl, rfl⟩

theorem iterate_succ_some (ctx : Context p) (st0 s' : LoopState p) (k : ℕ)
    (h : iterate ctx st0 (k + 1) = some s') :
    ∃ s vals, iterate ctx st0 k = some s ∧ loopBody ctx k s = some (s', vals) := by
  simp only [iterate, Option.pure_def, Option.bind_eq_bind, Option.bind_eq_some,
    Option.some.injEq] at h
  obtain ⟨s, hs, ⟨s'', vals⟩, hb, rfl⟩ := h
  exact ⟨s, vals, hs, hb⟩

theorem iterate_succ_of (ctx : Context p) (st0 s s' : LoopState p) (vals : IterValues p)
    (k : ℕ) (hs : iterate ctx st0 k = some s) (hb : loopBody ctx k s = some (s', vals)) :
    iterate ctx st0 (k + 1) = some s' := by
  simp only [iterate, hs, hb, Option.pure_def, Option.bind_eq_bind, Option.some_bind]

/-- What `setup` fixes in the context and in the initial state. -/
theorem setup_some (api : API p) (ext : Externals p) (c : List (ZMod p)) (cLength : ZMod p)
    (dict : List ℕ) (level : ℤ) (ctx : Context p) (st0 : LoopState p)
    (h : setup api ext c cLength dict level = some (ctx, st0)) :
    ctx.api = api ∧ ctx.symbolLong = ext.symbolLong ∧ ctx.symbolShort = ext.symbolShort ∧
      ctx.symbolDict = ext.symbolDict ∧
      ctx.decompressionNotBypassed = decompressionNotBypassed ctx.fileCompressionMode ∧
      assertFileCompressionMode ctx.fileCompressionMode level = some () ∧
      st0.inI = 0 ∧ st0.copyLen = 0 ∧ st0.copyLen01 = 1 ∧ st0.eof = 0 ∧ st0.dLength = 0 ∧
      st0.eofIsZeroConstant = true ∧ st0.d = [] := by
  simp only [setup, Option.pure_def, Option.bind_eq_bind, Option.bind_eq_some,
    Option.some.injEq, Prod.mk.injEq] at h
  obtain ⟨_, _, _, _, _, _, _, _, u, hu, _, _, hctx, hst⟩ := h
  subst hctx hst
  exact ⟨rfl, rfl, rfl, rfl, rfl, hu, rfl, rfl, rfl, rfl, rfl, rfl, rfl⟩


section Field

variable [Fact (Nat.Prime p)]

theorem IsZero_eq_one_iff (x : ZMod p) : IsZero x = 1 ↔ x = 0 := by
  unfold IsZero
  split_ifs with h
  · simp [h]
  · simp [h]

theorem IsZero_eq_zero_iff (x : ZMod p) : IsZero x = 0 ↔ x ≠ 0 := by
  unfold IsZero
  split_ifs with h
  · simp [h]
  · simp [h]

theorem IsZero_boolean (x : ZMod p) : IsZero x = 0 ∨ IsZero x = 1 := by
  unfold IsZero
  split_ifs
  · exact Or.inr rfl
  · exact Or.inl rfl

theorem Select_one (i1 i2 : ZMod p) : Select 1 i1 i2 = some i1 := by
  simp [Select]

theorem Select_zero (i1 i2 : ZMod p) : Select 0 i1 i2 = some i2 := by
  simp [Select]

theorem copyLen01Of_eq_one_iff (copyLen : ZMod p) :
    copyLen01Of copyLen = 1 ↔ copyLen = 0 ∨ copyLen = 1 := by
  unfold copyLen01Of MulAcc
  rw [IsZero_eq_one_iff]
  have e : -copyLen + copyLen * copyLen = copyLen * (copyLen - 1) := by ring
  rw [e, mul_eq_zero, sub_eq_zero]

theorem copyingOf_eq (api : API p) (hapi : api.EvaluatesPlonkExpression)
    (copyLen01 copyLen : ZMod p) :
    copyingOf api copyLen01 copyLen = 1 - copyLen01 + copyLen01 * copyLen := by
  unfold copyingOf
  rw [evaluatePlonkExpression_eq api hapi]
  push_cast
  ring

/-- The facts on `copyLen01` and `copying` for a value of `copyLen`. -/
theorem copying_facts (api : API p) (hapi : api.EvaluatesPlonkExpression) (copyLen : ZMod p) :
    (copyLen01Of copyLen = 1 ↔ copyLen = 0 ∨ copyLen = 1) ∧
      (copyLen01Of copyLen = 0 ∨ copyLen01Of copyLen = 1) ∧
      (copyLen01Of copyLen = 1 → copyingOf api (copyLen01Of copyLen) copyLen = copyLen) ∧
      (copyLen01Of copyLen = 0 → copyingOf api (copyLen01Of copyLen) copyLen = 1) ∧
      (copyingOf api (copyLen01Of copyLen) copyLen = 0 ∨
        copyingOf api (copyLen01Of copyLen) copyLen = 1) ∧
      (copyingOf api (copyLen01Of copyLen) copyLen = 0 ↔ copyLen = 0) := by
  have h01 : copyLen01Of copyLen = 0 ∨ copyLen01Of copyLen = 1 := IsZero_boolean _
  have hiff := copyLen01Of_eq_one_iff copyLen
  have h1 : copyLen01Of copyLen = 1 → copyingOf api (copyLen01Of copyLen) copyLen = copyLen := by
    intro h
    rw [copyingOf_eq api hapi, h]
    ring
  have h0 : copyLen01Of copyLen = 0 → copyingOf api (copyLen01Of copyLen) copyLen = 1 := by
    intro h
    rw [copyingOf_eq api hapi, h]
    ring
  refine ⟨hiff, h01, h1, h0, ?_, ?_⟩
  · rcases h01 with h | h
    · exact Or.inr (h0 h)
    · rw [h1 h]
      exact hiff.mp h
  · constructor
    · intro hc
      rcases h01 with h | h
      · rw [h0 h] at hc
        exact absurd hc one_ne_zero
      · rwa [h1 h] at hc
    · intro hc
      have h : copyLen01Of copyLen = 1 := hiff.mpr (Or.inl hc)
      rw [h1 h, hc]


/-- One iteration when decompression is bypassed. -/
theorem loopBody_bypass (ctx : Context p) (hapi : ctx.api.EvaluatesPlonkExpression)
    (hdnb : ctx.decompressionNotBypassed = 0)
    (hL : (ctx.symbolLong : ZMod p) ≠ 0) (hS : (ctx.symbolShort : ZMod p) ≠ 0)
    (hD : (ctx.symbolDict : ZMod p) ≠ 0) (outI : ℕ) (st st' : LoopState p)
    (vals : IterValues p) (h01 : st.copyLen01 = 1)
    (hb : loopBody ctx outI st = some (st', vals)) :
    vals.currIndicatesLongBr = 0 ∧ vals.currIndicatesShortBr = 0 ∧
      vals.currIndicatesDr = 0 ∧ st'.copyLen = 0 ∧ st'.copyLen01 = 1 ∧ vals.copying = 0 ∧
      vals.dOut = vals.curr ∧ Lookup ctx.bytesTable st.inI = some vals.curr ∧
      st'.d = st.d ++ [vals.curr] := by
  obtain ⟨lenByte, toCopy, hcurr, hLong, hShort, hDr, hsel, h01', hcop, hd, _, _, _, _, _, _,
    hdd⟩ := loopBody_some ctx outI st st' vals hb
  have eL : vals.currIndicatesLongBr = 0 := by
    rw [hLong, IsZero_eq_zero_iff, hdnb, mul_zero, zero_sub]
    exact neg_ne_zero.mpr hL
  have eS : vals.currIndicatesShortBr = 0 := by
    rw [hShort, IsZero_eq_zero_iff, hdnb, mul_zero, zero_sub]
    push_cast
    intro h
    apply hS
    have : -(ctx.symbolLong : ZMod p) - ((ctx.symbolShort : ZMod p) - ctx.symbolLong) =
        -(ctx.symbolShort : ZMod p) := by ring
    rw [this] at h
    exact neg_eq_zero.mp h
  have eD : vals.currIndicatesDr = 0 := by
    rw [hDr, IsZero_eq_zero_iff, hdnb, mul_zero, zero_sub]
    push_cast
    intro h
    apply hD
    have : -(ctx.symbolLong : ZMod p) - ((ctx.symbolDict : ZMod p) - ctx.symbolLong) =
        -(ctx.symbolDict : ZMod p) := by ring
    rw [this] at h
    exact neg_eq_zero.mp h
  rw [h01, eL, eS, eD, Select_one] at hsel
  have ecl : st'.copyLen = 0 := by
    rw [← Option.some.inj hsel]; ring
  have e01 : st'.copyLen01 = 1 := by
    rw [h01', (copyLen01Of_eq_one_iff _).mpr (Or.inl ecl)]
  have ecop : vals.copying = 0 := by
    rw [hcop, copyingOf_eq ctx.api hapi, e01, ecl]; ring
  rw [ecop, Select_zero] at hd
  have edo : vals.dOut = vals.curr := (Option.some.inj hd).symm
  exact ⟨eL, eS, eD, ecl, e01, ecop, edo, hcurr, by rw [hdd, edo]⟩

theorem iterate_bypass (ctx : Context p) (hapi : ctx.api.EvaluatesPlonkExpression)
    (hdnb : ctx.decompressionNotBypassed = 0)
    (hL : (ctx.symbolLong : ZMod p) ≠ 0) (hS : (ctx.symbolShort : ZMod p) ≠ 0)
    (hD : (ctx.symbolDict : ZMod p) ≠ 0) (st0 : LoopState p) (h0 : st0.copyLen = 0)
    (h01 : st0.copyLen01 = 1) :
    ∀ (k : ℕ) (s : LoopState p), iterate ctx st0 k = some s →
      s.copyLen = 0 ∧ s.copyLen01 = 1 := by
  intro k
  induction k with
  | zero =>
    intro s hs
    simp only [iterate, Option.some.injEq] at hs
    subst hs
    exact ⟨h0, h01⟩
  | succ k ih =>
    intro s' hs'
    obtain ⟨s, vals, hs, hb⟩ := iterate_succ_some ctx st0 s' k hs'
    have := loopBody_bypass ctx hapi hdnb hL hS hD k s s' vals (ih s hs).2 hb
    exact ⟨this.2.2.2.1, this.2.2.2.2.1⟩

/-- Both branches of the update of `inI` compute `inI + inIDelta * (1 - eof)`. -/
theorem updateInI_eq (api : API p) (hapi : api.EvaluatesPlonkExpression) (st : LoopState p)
    (hflag : st.eofIsZeroConstant = true → st.eof = 0) (inIDelta : ZMod p) :
    updateInI api st inIDelta = st.inI + inIDelta * (1 - st.eof) := by
  unfold updateInI
  split_ifs with h
  · rw [hflag h]; ring
  · rw [evaluatePlonkExpression_eq api hapi]
    push_cast
    ring


/-- The end-of-input part of one iteration. -/
theorem loopBody_eof (ctx : Context p) (hapi : ctx.api.EvaluatesPlonkExpression) (outI : ℕ)
    (s s' : LoopState p) (vals : IterValues p)
    (hflag : s.eofIsZeroConstant = true → s.eof = 0)
    (hb : loopBody ctx outI s = some (s', vals)) :
    s'.inI = s.inI + vals.inIDelta * (1 - s.eof) ∧
      s'.eof = IsZero (s'.inI - ctx.cLength) ∧
      s'.dLength = s.dLength + (s'.eof - s.eof) * ((outI + 1 : ℕ) : ZMod p) ∧
      s'.eofIsZeroConstant = false := by
  obtain ⟨_, _, _, _, _, _, _, _, _, _, hinI, heofNow, heof, hdl, hfl, _, _⟩ :=
    loopBody_some ctx outI s s' vals hb
  refine ⟨?_, ?_, ?_, hfl⟩
  · rw [hinI, updateInI_eq ctx.api hapi s hflag]
  · rw [heof, heofNow]
  · rw [hdl, heof]

/-- Once `eof` is `1`, an iteration leaves `inI`, `eof` and `dLength` as they are. -/
theorem loopBody_after_eof (ctx : Context p) (hapi : ctx.api.EvaluatesPlonkExpression)
    (outI : ℕ) (s s' : LoopState p) (vals : IterValues p)
    (hflag : s.eofIsZeroConstant = true → s.eof = 0) (heof : s.eof = 1)
    (hinI : s.inI = ctx.cLength) (hb : loopBody ctx outI s = some (s', vals)) :
    s'.inI = s.inI ∧ s'.eof = 1 ∧ s'.dLength = s.dLength := by
  obtain ⟨h1, h2, h3, _⟩ := loopBody_eof ctx hapi outI s s' vals hflag hb
  have e1 : s'.inI = s.inI := by rw [h1, heof]; ring
  have e2 : s'.eof = 1 := by rw [h2, e1, hinI, sub_self]; simp [IsZero]
  exact ⟨e1, e2, by rw [h3, e2, heof]; ring⟩

/-- The invariant of the loop on `eof`, `inI` and `dLength`. -/
theorem iterate_eof_invariant (ctx : Context p) (hapi : ctx.api.EvaluatesPlonkExpression)
    (st0 : LoopState p) (h0 : st0.eof = 0) (hd0 : st0.dLength = 0) :
    ∀ (k : ℕ) (s : LoopState p), iterate ctx st0 k = some s →
      (s.eofIsZeroConstant = true → s.eof = 0) ∧ (s.eof = 1 → s.inI = ctx.cLength) ∧
      ((s.eof = 0 ∧ s.dLength = 0 ∧
          ∀ j < k, ∀ t, iterate ctx st0 (j + 1) = some t → t.inI ≠ ctx.cLength) ∨
        (s.eof = 1 ∧ ∃ j < k, s.dLength = ((j + 1 : ℕ) : ZMod p) ∧
          (∃ t, iterate ctx st0 (j + 1) = some t ∧ t.inI = ctx.cLength) ∧
          ∀ i < j, ∀ t, iterate ctx st0 (i + 1) = some t → t.inI ≠ ctx.cLength)) := by
  intro k
  induction k with
  | zero =>
    intro s hs
    simp only [iterate, Option.some.injEq] at hs
    subst hs
    refine ⟨fun _ => h0, fun h => ?_, Or.inl ⟨h0, hd0, fun j hj => absurd hj (Nat.not_lt_zero j)⟩⟩
    rw [h0] at h
    exact absurd h zero_ne_one
  | succ k ih =>
    intro s' hs'
    obtain ⟨s, vals, hs, hb⟩ := iterate_succ_some ctx st0 s' k hs'
    obtain ⟨hflag, hB, hD⟩ := ih s hs
    obtain ⟨h1, h2, h3, h4⟩ := loopBody_eof ctx hapi k s s' vals hflag hb
    refine ⟨fun h => ?_, fun h => ?_, ?_⟩
    · rw [h4] at h; exact absurd h (by decide)
    · rw [h2, IsZero_eq_one_iff] at h
      exact sub_eq_zero.mp h
    · rcases hD with ⟨he, hdl, hall⟩ | ⟨he, j, hj, hdl, hex, hall⟩
      · by_cases hc : s'.inI = ctx.cLength
        · right
          have e2 : s'.eof = 1 := by rw [h2, hc, sub_self]; simp [IsZero]
          refine ⟨e2, k, Nat.lt_succ_self k, ?_, ⟨s', hs', hc⟩, hall⟩
          rw [h3, e2, he, hdl]; ring
        · left
          have e2 : s'.eof = 0 := by
            rw [h2, IsZero_eq_zero_iff]
            exact sub_ne_zero.mpr hc
          refine ⟨e2, ?_, ?_⟩
          · rw [h3, e2, he, hdl]; ring
          · intro j hj t ht
            rcases Nat.lt_succ_iff_lt_or_eq.mp hj with hlt | rfl
            · exact hall j hlt t ht
            · rw [hs'] at ht
              rw [← Option.some.inj ht]
              exact hc
      · right
        obtain ⟨e1, e2, e3⟩ := loopBody_after_eof ctx hapi k s s' vals hflag he (hB he) hb
        exact ⟨e2, j, Nat.lt_succ_of_lt hj, by rw [e3, hdl], hex, hall⟩

/-- The value of `dLength` after `n` iterations. -/
theorem iterate_dLength (ctx : Context p) (hapi : ctx.api.EvaluatesPlonkExpression)
    (st0 : LoopState p) (h0 : st0.eof = 0) (hd0 : st0.dLength = 0) (n : ℕ)
    (st : LoopState p) (hst : iterate ctx st0 n = some st) :
    ((∀ k < n, ∀ t, iterate ctx st0 (k + 1) = some t → t.inI ≠ ctx.cLength) →
        st.dLength = 0) ∧
      ∀ k < n, (∃ t, iterate ctx st0 (k + 1) = some t ∧ t.inI = ctx.cLength) →
        (∀ j < k, ∀ t, iterate ctx st0 (j + 1) = some t → t.inI ≠ ctx.cLength) →
        st.dLength = ((k + 1 : ℕ) : ZMod p) := by
  obtain ⟨_, _, hD⟩ := iterate_eof_invariant ctx hapi st0 h0 hd0 n st hst
  constructor
  · intro hnone
    rcases hD with ⟨_, hdl, _⟩ | ⟨_, j, hj, _, ⟨t, ht, htc⟩, _⟩
    · exact hdl
    · exact absurd htc (hnone j hj t ht)
  · intro k hk ⟨t, ht, htc⟩ hfirst
    rcases hD with ⟨_, _, hall⟩ | ⟨_, j, hj, hdl, ⟨t', ht', htc'⟩, hall⟩
    · exact absurd htc (hall k hk t ht)
    · have hjk : j = k := by
        rcases Nat.lt_trichotomy j k with hlt | heq | hgt
        · exact absurd htc' (hfirst j hlt t' ht')
        · exact heq
        · exact absurd htc (hall k hgt t ht)
      rw [hdl, hjk]

end Field

end Lemmas

/-! ## The claims on the decompression circuit -/

section Claims

variable {p : ℕ}

/-- The sample `api` without `frontend.PlonkAPI` has no method to be checked. -/
theorem sampleAPI_evaluatesPlonkExpression : sampleAPI.EvaluatesPlonkExpression := by
  intro f h
  simp [sampleAPI] at h

/-- The method of the sample `api` with `frontend.PlonkAPI` computes the gate expression. -/
theorem samplePlonkAPI_evaluatesPlonkExpression : samplePlonkAPI.EvaluatesPlonkExpression := by
  intro f h a b qL qR qM qC
  simp only [samplePlonkAPI, Option.some.injEq] at h
  rw [← h]

set_option maxRecDepth 4000 in
/-- The part of `Decompress` before the loop, on the sample input. -/
theorem sampleSetup_eq :
    setup sampleAPI sampleExternals sampleStream 5 [1, 2, 3] 8 =
      some (sampleContext, sampleInitial) := by
  rfl

/-- Claim C17. When the file compression mode read by `Decompress` is `0` and the three
symbols are non-zero in the field, then in every iteration of the loop the three indicators
`currIndicatesLongBr`, `currIndicatesShortBr`, `currIndicatesDr` are `0`, `copyLen` is `0`
before and after, and the entry written to `d` is `curr`, the byte looked up at the input
index `inI`. -/
theorem Decompress_bypass [Fact (Nat.Prime p)] (api : API p) (ext : Externals p)
    (c : List (ZMod p)) (cLength : ZMod p) (dict : List ℕ) (level : ℤ) (ctx : Context p)
    (st0 : LoopState p) (hapi : api.EvaluatesPlonkExpression)
    (hsetup : setup api ext c cLength dict level = some (ctx, st0))
    (hfcm : ctx.fileCompressionMode = 0)
    (hL : (ext.symbolLong : ZMod p) ≠ 0) (hS : (ext.symbolShort : ZMod p) ≠ 0)
    (hD : (ext.symbolDict : ZMod p) ≠ 0)
    (k : ℕ) (st st' : LoopState p) (vals : IterValues p)
    (hk : iterate ctx st0 k = some st) (hb : loopBody ctx k st = some (st', vals)) :
    vals.currIndicatesLongBr = 0 ∧ vals.currIndicatesShortBr = 0 ∧
      vals.currIndicatesDr = 0 ∧ st.copyLen = 0 ∧ st'.copyLen = 0 ∧
      Lookup ctx.bytesTable st.inI = some vals.curr ∧ vals.dOut = vals.curr ∧
      st'.d = st.d ++ [vals.curr] := by
  obtain ⟨hapi', hsL, hsS, hsD, hdnb, _, _, h0, h01, _⟩ :=
    setup_some api ext c cLength dict level ctx st0 hsetup
  have hdnb0 : ctx.decompressionNotBypassed = 0 := by
    rw [hdnb, hfcm]
    simp [decompressionNotBypassed, IsZero]
  rw [← hapi'] at hapi
  rw [← hsL] at hL
  rw [← hsS] at hS
  rw [← hsD] at hD
  have hinv := iterate_bypass ctx hapi hdnb0 hL hS hD st0 h0 h01 k st hk
  obtain ⟨e1, e2, e3, e4, _, _, e7, e8, e9⟩ :=
    loopBody_bypass ctx hapi hdnb0 hL hS hD k st st' vals hinv.2 hb
  exact ⟨e1, e2, e3, hinv.1, e4, e8, e7, e9⟩

/-- Witness of claim C17: the second iteration on the sample stream, whose compression mode
is `0`; the byte `7` is copied to the output. -/
theorem Decompress_bypass_witness :
    sampleValuesTwo.currIndicatesLongBr = 0 ∧ sampleValuesTwo.currIndicatesShortBr = 0 ∧
      sampleValuesTwo.currIndicatesDr = 0 ∧ sampleStateOne.copyLen = 0 ∧
      sampleStateTwo.copyLen = 0 ∧
      Lookup sampleContext.bytesTable sampleStateOne.inI = some sampleValuesTwo.curr ∧
      sampleValuesTwo.dOut = sampleValuesTwo.curr ∧
      sampleStateTwo.d = sampleStateOne.d ++ [sampleValuesTwo.curr] :=
  Decompress_bypass sampleAPI sampleExternals sampleStream 5 [1, 2, 3] 8 sampleContext
    sampleInitial sampleAPI_evaluatesPlonkExpression sampleSetup_eq rfl (by decide)
    (by decide) (by decide) 1 sampleStateOne sampleStateTwo sampleValuesTwo (by decide)
    (by decide)

/-- Claim C18. For every value of `copyLen`: `copyLen01` is `1` exactly when `copyLen` is `0`
or `1` (and is `0` otherwise); `copying` is `copyLen` when `copyLen01` is `1` and is `1` when
`copyLen01` is `0`; so `copying` is `0` or `1`, and it is `0` exactly when `copyLen` is
`0`. -/
theorem copyLen01_copying [Fact (Nat.Prime p)] (api : API p)
    (hapi : api.EvaluatesPlonkExpression) (copyLen : ZMod p) :
    (copyLen01Of copyLen = 1 ↔ copyLen = 0 ∨ copyLen = 1) ∧
      (copyLen01Of copyLen = 0 ∨ copyLen01Of copyLen = 1) ∧
      (copyLen01Of copyLen = 1 → copyingOf api (copyLen01Of copyLen) copyLen = copyLen) ∧
      (copyLen01Of copyLen = 0 → copyingOf api (copyLen01Of copyLen) copyLen = 1) ∧
      (copyingOf api (copyLen01Of copyLen) copyLen = 0 ∨
        copyingOf api (copyLen01Of copyLen) copyLen = 1) ∧
      (copyingOf api (copyLen01Of copyLen) copyLen = 0 ↔ copyLen = 0) :=
  copying_facts api hapi copyLen

/-- Witness of claim C18: `copyLen = 2`, with an `api` that implements `frontend.PlonkAPI`. -/
theorem copyLen01_copying_witness :
    copyLen01Of (2 : ZMod 257) = 0 ∧ copyingOf samplePlonkAPI (copyLen01Of 2) (2 : ZMod 257) = 1 :=
  have key := copyLen01_copying samplePlonkAPI samplePlonkAPI_evaluatesPlonkExpression 2
  ⟨by decide, key.2.2.2.1 (by decide)⟩

/-- Claim C19. For every value `fcm` of the file compression mode, with `0 < wordNbBits < p`:
the assertion `fcm * fcm = fcm * wordNbBits` holds exactly when `fcm = 0` or
`fcm = wordNbBits`; and under it `decompressionNotBypassed` is `1` exactly when
`fcm = wordNbBits` and `0` exactly when `fcm = 0`. -/
theorem fileCompressionMode_cases [Fact (Nat.Prime p)] (fcm : ZMod p) (wordNbBits : ℤ)
    (hpos : 0 < wordNbBits) (hlt : wordNbBits < (p : ℤ)) :
    (assertFileCompressionMode fcm wordNbBits = some () ↔
        fcm * fcm = fcm * (wordNbBits : ZMod p)) ∧
      (fcm * fcm = fcm * (wordNbBits : ZMod p) ↔ fcm = 0 ∨ fcm = (wordNbBits : ZMod p)) ∧
      (fcm * fcm = fcm * (wordNbBits : ZMod p) →
        (decompressionNotBypassed fcm = 1 ↔ fcm = (wordNbBits : ZMod p)) ∧
        (decompressionNotBypassed fcm = 0 ↔ fcm = 0)) := by
  have hw : (wordNbBits : ZMod p) ≠ 0 := by
    intro h
    rw [ZMod.intCast_zmod_eq_zero_iff_dvd] at h
    have := Int.le_of_dvd hpos h
    omega
  have hiff : fcm * fcm = fcm * (wordNbBits : ZMod p) ↔
      fcm = 0 ∨ fcm = (wordNbBits : ZMod p) := by
    rw [← sub_eq_zero, ← mul_sub, mul_eq_zero, sub_eq_zero]
  have h0 : decompressionNotBypassed fcm = 0 ↔ fcm = 0 := by
    unfold decompressionNotBypassed
    rw [sub_eq_zero, eq_comm, IsZero_eq_one_iff]
  have h1 : decompressionNotBypassed fcm = 1 ↔ fcm ≠ 0 := by
    unfold decompressionNotBypassed
    rw [sub_eq_self, IsZero_eq_zero_iff]
  refine ⟨?_, hiff, fun hassert => ⟨?_, h0⟩⟩
  · unfold assertFileCompressionMode AssertIsEqual
    split_ifs with h
    · simp [h]
    · simp [h]
  · rw [h1]
    constructor
    · intro hne
      rcases hiff.mp hassert with h | h
      · exact absurd h hne
      · exact h
    · intro h
      rw [h]
      exact hw

/-- Witness of claim C19: words of eight bits over `ZMod 257`, compression mode `8`. -/
theorem fileCompressionMode_cases_witness :
    assertFileCompressionMode (8 : ZMod 257) 8 = some () ∧
      decompressionNotBypassed (8 : ZMod 257) = 1 ∧
      decompressionNotBypassed (0 : ZMod 257) = 0 ∧
      assertFileCompressionMode (3 : ZMod 257) 8 = none :=
  have key := fileCompressionMode_cases (8 : ZMod 257) 8 (by decide) (by decide)
  ⟨key.1.mpr (by decide), (key.2.2 (by decide)).1.mpr (by decide), by decide, by decide⟩

/-- Claim C20. Both branches of the update of `inI` compute `inI + inIDelta * (1 - eof)`
(the first is taken while `eof` is the constant `0`, the second afterwards);
once `eof` is `1`, every later iteration leaves `inI`, `eof` and `dLength` unchanged; so the
`dLength` that `Decompress` returns is `k + 1` for the first iteration `k` (counted from `0`)
after which `inI` equals `cLength`, and `0` if there is no such iteration. -/
theorem Decompress_dLength [Fact (Nat.Prime p)] (api : API p) (ext : Externals p)
    (c : List (ZMod p)) (cLength : ZMod p) (dLen : ℕ) (dict : List ℕ) (level : ℤ)
    (ctx : Context p) (st0 st : LoopState p) (hapi : api.EvaluatesPlonkExpression)
    (hsetup : setup api ext c cLength dict level = some (ctx, st0))
    (hrun : iterate ctx st0 dLen = some st) :
    Decompress api ext c cLength dLen dict level = some (st.dLength, st.d) ∧
      (∀ (k : ℕ) (s : LoopState p) (inIDelta : ZMod p), iterate ctx st0 k = some s →
        (s.eofIsZeroConstant = true →
          s.inI + inIDelta = s.inI + inIDelta * (1 - s.eof)) ∧
        s.inI + evaluatePlonkExpression ctx.api inIDelta s.eof 1 0 (-1) 0 =
          s.inI + inIDelta * (1 - s.eof) ∧
        updateInI ctx.api s inIDelta = s.inI + inIDelta * (1 - s.eof)) ∧
      (∀ (k : ℕ) (s s' : LoopState p) (vals : IterValues p), iterate ctx st0 k = some s →
        s.eof = 1 → loopBody ctx k s = some (s', vals) →
        s'.inI = s.inI ∧ s'.eof = 1 ∧ s'.dLength = s.dLength) ∧
      ((∀ k < dLen, ∀ t, iterate ctx st0 (k + 1) = some t → t.inI ≠ ctx.cLength) →
        st.dLength = 0) ∧
      (∀ k < dLen, (∃ t, iterate ctx st0 (k + 1) = some t ∧ t.inI = ctx.cLength) →
        (∀ j < k, ∀ t, iterate ctx st0 (j + 1) = some t → t.inI ≠ ctx.cLength) →
        st.dLength = ((k + 1 : ℕ) : ZMod p)) := by
  obtain ⟨hapi', _, _, _, _, _, _, _, _, h0, hd0, _⟩ :=
    setup_some api ext c cLength dict level ctx st0 hsetup
  rw [← hapi'] at hapi
  have hlen := iterate_dLength ctx hapi st0 h0 hd0 dLen st hrun
  refine ⟨?_, ?_, ?_, hlen.1, hlen.2⟩
  · simp only [Decompress, hsetup, hrun, Option.pure_def, Option.bind_eq_bind,
      Option.some_bind]
  · intro k s inIDelta hs
    obtain ⟨hflag, _, _⟩ := iterate_eof_invariant ctx hapi st0 h0 hd0 k s hs
    refine ⟨fun h => ?_, ?_, updateInI_eq ctx.api hapi s hflag inIDelta⟩
    · rw [hflag h]; ring
    · rw [evaluatePlonkExpression_eq ctx.api hapi]
      push_cast
      ring
  · intro k s s' vals hs heof hb
    obtain ⟨hflag, hB, _⟩ := iterate_eof_invariant ctx hapi st0 h0 hd0 k s hs
    exact loopBody_after_eof ctx hapi k s s' vals hflag heof (hB heof) hb

/-- Witness of claim C20: on the sample stream the input is exhausted after the third
iteration, and `Decompress` returns `3`, with five entries written to `d`. -/
theorem Decompress_dLength_witness :
    Decompress sampleAPI sampleExternals sampleStream 5 5 [1, 2, 3] 8 =
        some (3, [5, 7, 9, 0, 0]) ∧
      (sampleStateFour.inI = sampleStateThree.inI ∧ sampleStateFour.eof = 1 ∧
        sampleStateFour.dLength = sampleStateThree.dLength) ∧
      sampleStateFive.dLength = ((2 + 1 : ℕ) : ZMod 257) :=
  have key := Decompress_dLength sampleAPI sampleExternals sampleStream 5 5 [1, 2, 3] 8
    sampleContext sampleInitial sampleStateFive sampleAPI_evaluatesPlonkExpression
    sampleSetup_eq (by decide)
  ⟨key.1,
    key.2.2.1 3 sampleStateThree sampleStateFour
      { curr := 0, currIndicatesLongBr := 0, currIndicatesShortBr := 0,
        currIndicatesDr := 0, copying := 0, inIDelta := 1, eofNow := 1, dOut := 0 }
      (by decide) (by decide) (by decide),
    key.2.2.2.2 2 (by decide) ⟨sampleStateThree, by decide, by decide⟩
      (fun j hj t ht => by
        have hj' : j = 0 ∨ j = 1 := by omega
        rcases hj' with rfl | rfl
        · have h1 : iterate sampleContext sampleInitial (0 + 1) = some sampleStateOne := by
            decide
          rw [h1] at ht
          rw [← Option.some.inj ht]
          decide
        · have h2 : iterate sampleContext sampleInitial (1 + 1) = some sampleStateTwo := by
            decide
          rw [h2] at ht
          rw [← Option.some.inj ht]
          decide)⟩

end Claims

end Lzss
